import Mathlib

/-!
Verification of the godc rune-at-a-time interpreter kernel.

This file gives a shallow embedding of the godc sources:
* `Value` and its arithmetic methods, from value.go (fixed-point variant,
  src/unnamed/part_005): a number is a big integer `intval` together with a
  base-10 `precision`, or a string of runes.
* `Stack` operations, from stack.go (src/unnamed/part_001): stacks hold
  *pointers* to values.  We model the Go heap explicitly: a `Store` is the
  list of allocated `Value`s and stacks/registers hold indices into it, so
  that in-place mutation through one pointer is visible through every alias,
  exactly as in Go.
* `NumberBuilder`, from number_builder.go (radix-aware fixed-point variant,
  src/unnamed/part_003), and the rational variant (src/number_builder.go).
* The operation catalogue from operation.go and the dispatcher from
  interpreter.go (`Interpret`, `InterpretMacro`), with the outer loop of
  dc.go as `runTop`.

Go's `big.Int.Div`/`Mod` are Euclidean division and are modelled with
`Int.ediv`/`Int.emod`; `big.Int.QuoRem` truncates toward zero and is
modelled with `Int.tdiv`/`Int.tmod`; `big.Int.Exp` with a negative exponent
and nil modulus returns 1, modelled by raising to `Int.toNat` of the
exponent.  Go panics (nil-pointer dereferences, the dispatcher's internal
`panic`) are a distinguished result constructor, as is running out of the
fuel that makes the (in Go unbounded) macro recursion structural.
-/

namespace Godc

/-- The error values of the interpreter (interpreter.go, operation.go,
value.go).  `continueProcessingRune` is the internal reprocess sentinel,
`exitRequested` the quit signal.  `parseError` stands for the anonymous
`fmt.Errorf` failures of `NumberBuilder.Flush`. -/
inductive GoErr where
  | stackTooShort
  | exitRequested
  | notARegisterName
  | notImplemented
  | valueNotNumeric
  | valueNotString
  | continueProcessingRune
  | notANumber
  | divideByZero
  | noImaginaryNumbers
  | wholeExponentsOnly
  | parseError
  deriving DecidableEq, Repr

/-- value.go: `ValueType` tags a `Value` as number or string. -/
inductive ValueType where
  | number
  | string
  deriving DecidableEq, Repr

/-- value.go (src/unnamed/part_005): a value is a big integer scaled by
`10^precision`, or a rune string.  Go's nil `intval` of a zero `Value` is
represented by `0`; no operation distinguishes the two. -/
structure Value where
  intval : Int := 0
  strval : List Char := []
  precision : Int := 0
  type : ValueType := ValueType.number
  deriving DecidableEq, Repr

instance : Inhabited Value := ⟨{}⟩

/-- Convenience constructor for a number value (as built by Go composite
literals such as `&Value{intval: big.NewInt(n)}`). -/
def mkNum (i : Int) (p : Int) : Value :=
  { intval := i, precision := p }

/-- Convenience constructor for a string value (as built by
`StringBuilder`). -/
def mkStr (cs : List Char) : Value :=
  { strval := cs, type := ValueType.string }

/-- The rational number denoted by a fixed-point number value with
non-negative precision: `intval / 10 ^ precision`.  Used only in
specifications, never by the embedded code. -/
def ratVal (v : Value) : ℚ :=
  (v.intval : ℚ) / (10 : ℚ) ^ v.precision.toNat

/-- value.go `precisionToFactor`: `10^precision` via `big.Int.Exp`, which
yields 1 for a negative exponent. -/
def precisionToFactor (precision : Int) : Int :=
  10 ^ precision.toNat

/-- Go `big.Int.Exp(b, e, nil)`: `b^e` for `e ≥ 0`, and 1 for `e < 0`. -/
def goPow (b : Int) (e : Int) : Int :=
  b ^ e.toNat

/-- value.go `Value.UpdatePrecision`: rescale `intval` so the denoted value
keeps its magnitude while `precision` becomes `newprecision`.  Scaling down
uses `big.Int.Div` (Euclidean), so fractional digits are floored away.
The guard `!n.Type == VTNumber` in the source evaluates to "return early
exactly when the value is a string". -/
def Value.updatePrecision (n : Value) (newprecision : Int) : Value :=
  if n.type = ValueType.string then n
  else if newprecision > n.precision then
    { n with intval := n.intval * precisionToFactor (newprecision - n.precision),
             precision := newprecision }
  else
    { n with intval := Int.ediv n.intval (precisionToFactor (n.precision - newprecision)),
             precision := newprecision }

/-- value.go `Value.MatchPrecision` (pure form): the value with the smaller
precision is scaled up so both have the precision of the larger; results are
returned in the original argument order. -/
def matchPrecisionP (n m : Value) : Value × Value :=
  if n.precision > m.precision then (n, m.updatePrecision n.precision)
  else (n.updatePrecision m.precision, m)

/-- value.go `Value.Dup`: a deep copy.  Values are immutable data here, so
a copy is the value itself; allocation of the copy is done at push sites. -/
def Value.dup (n : Value) : Value := n

/-- Go heap pointers: indices into the store. -/
abbrev Ptr := Nat

/-- The Go heap: every `*Value` that has ever been pushed onto a stack or a
register lives here; stacks hold indices.  Popping removes the index from
the stack but keeps the entry, so aliases keep observing mutations. -/
abbrev Store := List Value

/-- Dereference a pointer (all pointers produced by the embedding are in
range; out-of-range defaults to the zero value). -/
def getv (s : Store) (p : Ptr) : Value :=
  s.getD p default

/-- Write through a pointer. -/
def setv (s : Store) (p : Ptr) (v : Value) : Store :=
  s.set p v

/-- Allocate a fresh value, returning its pointer. -/
def alloc (s : Store) (v : Value) : Store × Ptr :=
  (s ++ [v], s.length)

/-- value.go `Value.UpdatePrecision` through a pointer. -/
def UpdatePrecisionM (s : Store) (p : Ptr) (newprecision : Int) : Store :=
  setv s p ((getv s p).updatePrecision newprecision)

/-- value.go `Value.MatchPrecision` through pointers: mutates whichever of
the two values has the smaller precision (a self-alias is a no-op, as in
the source). -/
def MatchPrecisionM (s : Store) (np mp : Ptr) : Store :=
  let n := getv s np
  let m := getv s mp
  if n.precision > m.precision then setv s mp (m.updatePrecision n.precision)
  else setv s np (n.updatePrecision m.precision)

/-- operation.go `ensureNumeric`: first non-number argument yields
`ErrValueNotNumeric`. -/
def ensureNumeric (vals : List Value) : Option GoErr :=
  if vals.all (fun v => v.type = ValueType.number) then none
  else some GoErr.valueNotNumeric

/-- value.go `Value.Add` through pointers: checks both types, matches
precisions (mutating), then adds `m` into `n` in place. -/
def AddM (s : Store) (np mp : Ptr) : Store × Option GoErr :=
  if (getv s np).type ≠ ValueType.number then (s, some GoErr.notANumber)
  else if (getv s mp).type ≠ ValueType.number then (s, some GoErr.notANumber)
  else
    let s1 := MatchPrecisionM s np mp
    let n := getv s1 np
    let m := getv s1 mp
    (setv s1 np { n with intval := n.intval + m.intval }, none)

/-- value.go `Value.Subtract` through pointers. -/
def SubtractM (s : Store) (np mp : Ptr) : Store × Option GoErr :=
  if (getv s np).type ≠ ValueType.number then (s, some GoErr.notANumber)
  else if (getv s mp).type ≠ ValueType.number then (s, some GoErr.notANumber)
  else
    let s1 := MatchPrecisionM s np mp
    let n := getv s1 np
    let m := getv s1 mp
    (setv s1 np { n with intval := n.intval - m.intval }, none)

/-- value.go `Value.Multiply` through pointers: the precision of `n` becomes
the sum of both precisions, then the integers are multiplied. -/
def MultiplyM (s : Store) (np mp : Ptr) : Store × Option GoErr :=
  if (getv s np).type ≠ ValueType.number then (s, some GoErr.notANumber)
  else if (getv s mp).type ≠ ValueType.number then (s, some GoErr.notANumber)
  else
    let s1 := setv s np { getv s np with precision := (getv s np).precision + (getv s mp).precision }
    let n := getv s1 np
    let m := getv s1 mp
    (setv s1 np { n with intval := n.intval * m.intval }, none)

/-- value.go `Value.Divide` through pointers: errors on a zero divisor
before any mutation; otherwise matches precisions, scales `n` up by the
divisor's precision, divides (Euclidean) and lowers the precision field. -/
def DivideM (s : Store) (np mp : Ptr) : Store × Option GoErr :=
  if (getv s np).type ≠ ValueType.number then (s, some GoErr.notANumber)
  else if (getv s mp).type ≠ ValueType.number then (s, some GoErr.notANumber)
  else if (getv s mp).intval = 0 then (s, some GoErr.divideByZero)
  else
    let s1 := MatchPrecisionM s np mp
    let s2 := UpdatePrecisionM s1 np ((getv s1 np).precision + (getv s1 mp).precision)
    let n := getv s2 np
    let m := getv s2 mp
    let s3 := setv s2 np { n with intval := Int.ediv n.intval m.intval }
    (setv s3 np { getv s3 np with precision := (getv s3 np).precision - (getv s3 mp).precision }, none)

/-- value.go `Value.QuotientRemainder` through pointers: after matching
precisions, `big.Int.QuoRem` writes the truncated quotient into `n` and the
remainder into `m`; both pointers are returned (quotient first). -/
def QuotientRemainderM (s : Store) (np mp : Ptr) :
    Store × Option (Ptr × Ptr) × Option GoErr :=
  if (getv s np).type ≠ ValueType.number then (s, none, some GoErr.notANumber)
  else if (getv s mp).type ≠ ValueType.number then (s, none, some GoErr.notANumber)
  else if (getv s mp).intval = 0 then (s, none, some GoErr.divideByZero)
  else
    let s1 := MatchPrecisionM s np mp
    let n := getv s1 np
    let m := getv s1 mp
    let q := Int.tdiv n.intval m.intval
    let r := Int.tmod n.intval m.intval
    let s2 := setv s1 np { n with intval := q }
    let s3 := setv s2 mp { getv s2 mp with intval := r }
    (s3, some (np, mp), none)

/-- value.go `Value.IntVal` through a pointer: drop to precision 0. -/
def IntValM (s : Store) (p : Ptr) : Store × Option GoErr :=
  if (getv s p).type ≠ ValueType.number then (s, some GoErr.notANumber)
  else (UpdatePrecisionM s p 0, none)

/-- value.go `Value.Int` through a pointer: `IntVal` (mutating) followed by
reading the integer. -/
def IntM (s : Store) (p : Ptr) : Store × Int :=
  let s1 := (IntValM s p).1
  (s1, (getv s1 p).intval)

/-- value.go `Value.Exponent` through pointers: the exponent `m` is
truncated to precision 0 *before* the positivity check (so a failing call
has already mutated it); on success `n` is raised and rescaled. -/
def ExponentM (s : Store) (np mp : Ptr) : Store × Option GoErr :=
  if (getv s np).type ≠ ValueType.number then (s, some GoErr.notANumber)
  else if (getv s mp).type ≠ ValueType.number then (s, some GoErr.notANumber)
  else
    let s1 := UpdatePrecisionM s mp 0
    if (getv s1 mp).intval ≤ 0 then (s1, some GoErr.wholeExponentsOnly)
    else
      let n := getv s1 np
      let m := getv s1 mp
      let s2 := setv s1 np { n with intval := goPow n.intval m.intval }
      let afterPower := (getv s2 np).precision * ((getv s2 mp).intval - 1)
      let afterFactor := precisionToFactor afterPower
      let n2 := getv s2 np
      (setv s2 np { n2 with intval := Int.ediv n2.intval afterFactor }, none)

/-- Go `big.Int.Exp(x, y, m)` with a non-nil modulus: `x^y mod |m|` (a zero
modulus behaves like nil). -/
def goExpMod (x y m : Int) : Int :=
  if m = 0 then goPow x y else Int.emod (goPow x y) m

/-- value.go `Value.ModExponent` through pointers (receiver `n`, exponent
`e`, modulus `m`): type checks, then all three are truncated to precision 0,
then the positivity check on `e`, then modular exponentiation into `n`. -/
def ModExponentM (s : Store) (np ep mp : Ptr) : Store × Option GoErr :=
  if (getv s np).type ≠ ValueType.number then (s, some GoErr.notANumber)
  else if (getv s mp).type ≠ ValueType.number then (s, some GoErr.notANumber)
  else if (getv s ep).type ≠ ValueType.number then (s, some GoErr.notANumber)
  else
    let s1 := UpdatePrecisionM s np 0
    let s2 := UpdatePrecisionM s1 ep 0
    let s3 := UpdatePrecisionM s2 mp 0
    if (getv s3 ep).intval ≤ 0 then (s3, some GoErr.wholeExponentsOnly)
    else
      let n := getv s3 np
      (setv s3 np { n with intval := goExpMod n.intval (getv s3 ep).intval (getv s3 mp).intval }, none)

/-- Go `big.Int.Sqrt` (floor square root; only called on non-negatives). -/
def goSqrt (x : Int) : Int :=
  (Nat.sqrt x.toNat : Int)

/-- value.go `Value.Sqrt` through a pointer: errors on negatives, otherwise
doubles the precision, takes the floor square root and halves the precision
field (Go `int` division truncates). -/
def SqrtM (s : Store) (p : Ptr) : Store × Option GoErr :=
  if (getv s p).type ≠ ValueType.number then (s, some GoErr.notANumber)
  else if (getv s p).intval < 0 then (s, some GoErr.noImaginaryNumbers)
  else
    let s1 := UpdatePrecisionM s p ((getv s p).precision * 2)
    let n := getv s1 p
    let s2 := setv s1 p { n with intval := goSqrt n.intval }
    (setv s2 p { getv s2 p with precision := Int.tdiv (getv s2 p).precision 2 }, none)

/-- Go `big.Int.Text`: digits of a non-negative integer in the given base
(lowercase letters for 10..15), with a leading minus sign for negatives. -/
def intTextB (radix : Nat) (i : Int) : String :=
  if i < 0 then String.mk ('-' :: Nat.toDigits radix (-i).toNat)
  else String.mk (Nat.toDigits radix i.toNat)

/-- Go `strings.ToUpper` on ASCII strings. -/
def toUpperStr (s : String) : String :=
  String.mk (s.toList.map Char.toUpper)

/-- value.go `Value.Text` (src/unnamed/part_005): render a value in the
given radix.  Strings render as themselves; numbers with precision 0 via
`big.Int.Text`; otherwise the integer part is divided off, the fractional
part is rebased from `10^precision` to `radix^precision`, truncated to the
precision and left-padded with zeros. -/
def textValue (n : Value) (radix : Nat) : String :=
  if n.type = ValueType.string then String.mk n.strval
  else if n.precision = 0 then toUpperStr (intTextB radix n.intval)
  else
    let factor := precisionToFactor n.precision
    let sign := n.intval.sign
    let val := |n.intval|
    let intVal := Int.ediv val factor
    let fracVal := val - intVal * factor
    let bigRadix := goPow (radix : Int) n.precision
    let fracVal2 := Int.ediv (fracVal * bigRadix) factor
    let intStr := intTextB radix intVal
    let fracStr0 := intTextB radix fracVal2
    let fracStr1 :=
      if (fracStr0.length : Int) > n.precision then
        String.mk (fracStr0.toList.take n.precision.toNat)
      else fracStr0
    let fracStr := String.mk (List.replicate (n.precision.toNat - fracStr1.length) '0') ++ fracStr1
    if sign < 0 then toUpperStr ("-" ++ intStr ++ "." ++ fracStr)
    else toUpperStr (intStr ++ "." ++ fracStr)

/-- value.go `Value.String`: rendering in radix 10 (what `fmt` printing
through `Format`/`String` uses). -/
def stringValue (n : Value) : String :=
  textValue n 10

/-- The value of a single digit rune as accepted by `big.Int.SetString`
(the number-builder buffers only ever hold `0`-`9` and `A`-`H`). -/
def digitVal (c : Char) : Option Nat :=
  if '0' ≤ c ∧ c ≤ '9' then some (c.toNat - '0'.toNat)
  else if 'A' ≤ c ∧ c ≤ 'H' then some (c.toNat - 'A'.toNat + 10)
  else none

/-- Go `big.Int.SetString` on a plain digit string under the given radix:
fails on an empty string or on any digit not below the radix. -/
def parseDigits (radix : Nat) : List Char → Option Int
  | [] => none
  | cs =>
    cs.foldl
      (fun acc c =>
        match acc, digitVal c with
        | some n, some d => if d < radix then some (n * radix + d) else none
        | _, _ => none)
      (some 0)

/-- Go `strings.Split(s, ".")` on a rune list. -/
def splitDots : List Char → List (List Char)
  | [] => [[]]
  | c :: rest =>
    match splitDots rest with
    | [] => [[]]
    | g :: gs => if c = '.' then [] :: g :: gs else (c :: g) :: gs

/-- The tags of the interpreter's operation singletons (the values stored in
the `Operations` dispatch table of interpreter.go and in
`CurrentOperation`). -/
inductive OpTag where
  | numberBuilderOp
  | quitOp
  | printOp
  | printRawOp
  | popPrintOp
  | printStackOp
  | addOp
  | subOp
  | mulOp
  | divOp
  | modOp
  | quotRemOp
  | expOp
  | modExpOp
  | sqrtOp
  | clearOp
  | dupOp
  | revOp
  | moveToRegOp
  | moveFromRegOp
  | moveToRegStackOp
  | moveFromRegStackOp
  | setPrecOp
  | setIRadixOp
  | setORadixOp
  | getIRadixOp
  | getORadixOp
  | stringBuilderOp
  | notImplOp
  | execOp
  | gtOp
  | ltOp
  | eqOp
  | negOp
  | macroQuitOp
  | pushLenOp
  | commentOp
  deriving DecidableEq, Repr

/-- The comparison selected by a conditional-macro operation. -/
inductive CmpTag where
  | ltT
  | gtT
  | eqT
  deriving DecidableEq, Repr

/-- The mutable state of `NegativeMacroOperation.Op` (operation.go): the
inner `MacroOperation` once allocated, with its `Predicate` (none models the
nil predicate left behind by the error branch) and its `State` flag. -/
structure NegInner where
  pred : Option CmpTag
  state : Bool
  deriving DecidableEq, Repr

/-- interpreter.go `Interpreter` plus the mutable state of the package-level
operation singletons (the number builder, the string builder, the four
register operations, the three conditional operations and the negated
conditional), and the output sink. -/
structure Interp where
  store : Store := []
  stack : List Ptr := []
  regs : List (List Ptr) := List.replicate 26 []
  precision : Int := 0
  quitLevel : Int := 0
  inputRadix : Nat := 10
  outputRadix : Nat := 10
  current : Option OpTag := none
  nbBuff : List Char := []
  nbSign : Bool := false
  nbDot : Bool := false
  nbHungry : Bool := false
  sbHungry : Bool := false
  sbVal : List Char := []
  regSState : Bool := false
  regLState : Bool := false
  regSSState : Bool := false
  regLLState : Bool := false
  gtState : Bool := false
  ltState : Bool := false
  eqState : Bool := false
  negState : Bool := false
  negInner : Option NegInner := none
  output : String := ""
  deriving DecidableEq, Repr

/-- interpreter.go `NewInterpreter`. -/
def newInterpreter : Interp := {}

/-- Register index of a register rune (only applied to `a`..`z`). -/
def regIdx (c : Char) : Nat :=
  c.toNat - 97

/-- The stack of register `c`. -/
def getReg (st : Interp) (c : Char) : List Ptr :=
  st.regs.getD (regIdx c) []

/-- Replace the stack of register `c`. -/
def setReg (st : Interp) (c : Char) (v : List Ptr) : Interp :=
  { st with regs := st.regs.set (regIdx c) v }

/-- operation.go `isRegister`: a lowercase ASCII letter. -/
def isRegister (r : Char) : Bool :=
  if r < 'a' then false
  else if 'z' < r then false
  else true

/-- number_builder.go (src/unnamed/part_003) `isDigit`: digits `0`-`9`, the
hex-like digits `A`-`H`, the decimal point and the sign marker. -/
def isDigit (r : Char) : Bool :=
  if r = '.' then true
  else if r = '_' then true
  else if '0' ≤ r ∧ r ≤ '9' then true
  else if 'A' ≤ r ∧ r ≤ 'H' then true
  else false

/-- The values on the main stack, top first. -/
def stackVals (st : Interp) : List Value :=
  st.stack.map (getv st.store)

/-- The value at the top of register `c`, if any. -/
def regTopVal (st : Interp) (c : Char) : Option Value :=
  (getReg st c).head?.map (getv st.store)

/-- interpreter.go `print`/`println`: append to the output sink. -/
def emit (st : Interp) (s : String) : Interp :=
  { st with output := st.output ++ s }

/-- The result of interpreting one rune: the Go `error` return plus the
mutated interpreter, a Go runtime panic, or fuel exhaustion of the
embedding. -/
inductive Res where
  | ok (st : Interp) (err : Option GoErr)
  | panic
  | nofuel
  deriving DecidableEq, Repr

/-- The result of one `Operation.Operate` call: `(finished, err)` plus the
mutated interpreter, or panic / fuel exhaustion. -/
inductive OpRes where
  | opok (st : Interp) (finished : Bool) (err : Option GoErr)
  | panic
  | nofuel
  deriving DecidableEq, Repr

/-- The `error` component of an `Operate` result. -/
def opErr : OpRes → Option GoErr
  | OpRes.opok _ _ e => e
  | _ => none

/-- Map a function over the interpreter state inside an `Operate` result. -/
def mapResState (g : Interp → Interp) : OpRes → OpRes
  | OpRes.opok st f e => OpRes.opok (g st) f e
  | r => r

/-- The success tail of number_builder.go `NumberBuilder.Flush`
(src/unnamed/part_003): negate when the sign flag is set, set the value's
precision, rescale to the interpreter's display precision, push, and reset
the builder. -/
def nbFinish (st : Interp) (num : Int) (vprec : Int) : Interp :=
  let num2 := if st.nbSign then -num else num
  let v := (mkNum num2 vprec).updatePrecision st.precision
  let (s', p) := alloc st.store v
  { st with store := s', stack := p :: st.stack,
            nbBuff := [], nbSign := false, nbDot := false, nbHungry := false }

/-- number_builder.go `NumberBuilder.Flush` (src/unnamed/part_003): parse
the buffered digit groups under the input radix.  With a decimal point the
fractional digits are rescaled from `radix^k` to `radix^P` (truncating when
`k > P`), then rebased to `10^P`, where `P` is the current display
precision; parse failures are returned without resetting the builder. -/
def nbFlush (st : Interp) : Interp × Option GoErr :=
  if st.nbDot then
    match splitDots st.nbBuff with
    | [p0, p1] =>
      match (if p0.length > 0 then parseDigits st.inputRadix p0 else some 0) with
      | none => (st, some GoErr.parseError)
      | some num =>
        let prec : Int := (p1.length : Int)
        if 0 < prec then
          match parseDigits st.inputRadix p1 with
          | none => (st, some GoErr.parseError)
          | some frac0 =>
            let radix : Int := (st.inputRadix : Int)
            let frac1 :=
              if st.precision > prec then frac0 * goPow radix (st.precision - prec)
              else if prec > st.precision then Int.ediv frac0 (goPow radix (prec - st.precision))
              else frac0
            let radixPrec := goPow radix st.precision
            let factor := precisionToFactor st.precision
            let frac2 := Int.ediv (frac1 * factor) radixPrec
            (nbFinish st (num * factor + frac2) st.precision, none)
        else (nbFinish st num 0, none)
    | _ => (st, some GoErr.parseError)
  else
    match parseDigits st.inputRadix st.nbBuff with
    | none => (st, some GoErr.parseError)
    | some num => (nbFinish st num 0, none)

/-- number_builder.go `NumberBuilder.Operate`: non-digits (and a `_` after
the first rune, and a second `.`) flush the literal and ask the dispatcher
to reprocess the rune; otherwise the rune extends the builder state. -/
def nbOperate (st : Interp) (r : Char) : OpRes :=
  if ¬ isDigit r then
    match nbFlush st with
    | (st', some e) => OpRes.opok st' true (some e)
    | (st', none) => OpRes.opok st' true (some GoErr.continueProcessingRune)
  else if st.nbHungry ∧ r = '_' then
    match nbFlush st with
    | (st', some e) => OpRes.opok st' true (some e)
    | (st', none) => OpRes.opok st' true (some GoErr.continueProcessingRune)
  else
    let st1 := { st with nbHungry := true }
    if r = '_' then OpRes.opok { st1 with nbSign := true } false none
    else if r = '.' then
      if st1.nbDot then
        match nbFlush st1 with
        | (st', some e) => OpRes.opok st' true (some e)
        | (st', none) => OpRes.opok st' true (some GoErr.continueProcessingRune)
      else OpRes.opok { st1 with nbDot := true, nbBuff := st1.nbBuff ++ [r] } false none
    else OpRes.opok { st1 with nbBuff := st1.nbBuff ++ [r] } false none

/-- operation.go `StringBuilder.Operate`: `[` (re)starts accumulation, `]`
pushes the accumulated string — there is no nesting counter, so an inner
`[` simply resets the buffer and the first `]` terminates the literal. -/
def sbOperate (st : Interp) (r : Char) : OpRes :=
  if r = '[' then
    OpRes.opok { st with sbHungry := true, sbVal := [] } false none
  else if r = ']' then
    let (s', p) := alloc st.store (mkStr st.sbVal)
    OpRes.opok { st with sbHungry := false, store := s', stack := p :: st.stack } true none
  else if st.sbHungry = false then OpRes.opok st true none
  else OpRes.opok { st with sbVal := st.sbVal ++ [r] } false none

/-- operation.go `makeUnaryOperation`: pop one value, run the body, push the
popped value back on error, or push the returned values in order. -/
def makeUnaryOperation (f : Store → Ptr → Store × List Ptr × Option GoErr)
    (st : Interp) : OpRes :=
  match st.stack with
  | val :: rest =>
    match f st.store val with
    | (s', _, some e) => OpRes.opok { st with store := s', stack := val :: rest } true (some e)
    | (s', nums, none) => OpRes.opok { st with store := s', stack := nums.reverse ++ rest } true none
  | _ => OpRes.opok st true (some GoErr.stackTooShort)

/-- operation.go `makeBinaryOperation`: pop right then left, run the body,
push the operands back in their original order on error, or push the
returned values in order. -/
def makeBinaryOperation (f : Store → Ptr → Ptr → Store × List Ptr × Option GoErr)
    (st : Interp) : OpRes :=
  match st.stack with
  | right :: left :: rest =>
    match f st.store left right with
    | (s', _, some e) => OpRes.opok { st with store := s', stack := right :: left :: rest } true (some e)
    | (s', nums, none) => OpRes.opok { st with store := s', stack := nums.reverse ++ rest } true none
  | _ => OpRes.opok st true (some GoErr.stackTooShort)

/-- operation.go: the body of `AdditionOperation`. -/
def AdditionF (s : Store) (left right : Ptr) : Store × List Ptr × Option GoErr :=
  match ensureNumeric [getv s left, getv s right] with
  | some e => (s, [], some e)
  | none =>
    match AddM s left right with
    | (s', some e) => (s', [], some e)
    | (s', none) => (s', [left], none)

/-- operation.go: the body of `SubtractionOperation`. -/
def SubtractionF (s : Store) (left right : Ptr) : Store × List Ptr × Option GoErr :=
  match ensureNumeric [getv s left, getv s right] with
  | some e => (s, [], some e)
  | none =>
    match SubtractM s left right with
    | (s', some e) => (s', [], some e)
    | (s', none) => (s', [left], none)

/-- operation.go: the body of `MultiplicationOperation`. -/
def MultiplicationF (s : Store) (left right : Ptr) : Store × List Ptr × Option GoErr :=
  match ensureNumeric [getv s left, getv s right] with
  | some e => (s, [], some e)
  | none =>
    match MultiplyM s left right with
    | (s', some e) => (s', [], some e)
    | (s', none) => (s', [left], none)

/-- operation.go: the body of `DivisionOperation`. -/
def DivisionF (s : Store) (left right : Ptr) : Store × List Ptr × Option GoErr :=
  match ensureNumeric [getv s left, getv s right] with
  | some e => (s, [], some e)
  | none =>
    match DivideM s left right with
    | (s', some e) => (s', [], some e)
    | (s', none) => (s', [left], none)

/-- operation.go: the body of `ModuloOperation` — quotient discarded, only
the remainder pushed. -/
def ModuloF (s : Store) (left right : Ptr) : Store × List Ptr × Option GoErr :=
  match ensureNumeric [getv s left, getv s right] with
  | some e => (s, [], some e)
  | none =>
    match QuotientRemainderM s left right with
    | (s', _, some e) => (s', [], some e)
    | (s', some (_, r), none) => (s', [r], none)
    | (s', none, none) => (s', [], none)

/-- operation.go: the body of `QuotientRemainderOperation` — the source
returns `[]*Value{r, q}`, so the remainder is pushed first and the quotient
ends on top. -/
def QuotientRemainderF (s : Store) (left right : Ptr) : Store × List Ptr × Option GoErr :=
  match ensureNumeric [getv s left, getv s right] with
  | some e => (s, [], some e)
  | none =>
    match QuotientRemainderM s left right with
    | (s', _, some e) => (s', [], some e)
    | (s', some (q, r), none) => (s', [r, q], none)
    | (s', none, none) => (s', [], none)

/-- operation.go: the body of `ExponentOperation`. -/
def ExponentF (s : Store) (left right : Ptr) : Store × List Ptr × Option GoErr :=
  match ensureNumeric [getv s left, getv s right] with
  | some e => (s, [], some e)
  | none =>
    match ExponentM s left right with
    | (s', some e) => (s', [], some e)
    | (s', none) => (s', [left], none)

/-- operation.go: the body of `SqrtOperation` (returns the operand together
with any error). -/
def SqrtF (s : Store) (val : Ptr) : Store × List Ptr × Option GoErr :=
  match SqrtM s val with
  | (s', e) => (s', [val], e)

/-- operation.go: the body of `DuplicationOperation` — push the value and a
deep copy (a fresh allocation). -/
def DuplicationF (s : Store) (val : Ptr) : Store × List Ptr × Option GoErr :=
  let (s', p) := alloc s ((getv s val).dup)
  (s', [val, p], none)

/-- operation.go: the body of `ReverseOperation` — swap the two operands. -/
def ReverseF (s : Store) (left right : Ptr) : Store × List Ptr × Option GoErr :=
  (s, [right, left], none)

/-- operation.go `AdditionOperation` (`+`). -/
def AdditionOperation : Interp → OpRes := makeBinaryOperation AdditionF

/-- operation.go `SubtractionOperation` (`-`). -/
def SubtractionOperation : Interp → OpRes := makeBinaryOperation SubtractionF

/-- operation.go `MultiplicationOperation` (`*`). -/
def MultiplicationOperation : Interp → OpRes := makeBinaryOperation MultiplicationF

/-- operation.go `DivisionOperation` (`/`). -/
def DivisionOperation : Interp → OpRes := makeBinaryOperation DivisionF

/-- operation.go `ModuloOperation` (`%`). -/
def ModuloOperation : Interp → OpRes := makeBinaryOperation ModuloF

/-- operation.go `QuotientRemainderOperation` (`~`). -/
def QuotientRemainderOperation : Interp → OpRes := makeBinaryOperation QuotientRemainderF

/-- operation.go `ExponentOperation` (`^`). -/
def ExponentOperation : Interp → OpRes := makeBinaryOperation ExponentF

/-- operation.go `SqrtOperation` (`v`). -/
def SqrtOperation : Interp → OpRes := makeUnaryOperation SqrtF

/-- operation.go `DuplicationOperation` (`d`). -/
def DuplicationOperation : Interp → OpRes := makeUnaryOperation DuplicationF

/-- operation.go `ReverseOperation` (`r`). -/
def ReverseOperation : Interp → OpRes := makeBinaryOperation ReverseF

/-- operation.go `QuitOperation` (`q`). -/
def QuitOperation (st : Interp) : OpRes :=
  OpRes.opok { st with quitLevel := 1 } true (some GoErr.exitRequested)

/-- operation.go `MacroQuitOperation` (`Q`): reset the quit level, then if
the stack has a numeric top, pop it (truncating it to an integer in place)
and use it as the quit level; always signal exit-requested. -/
def MacroQuitOperation (st : Interp) : OpRes :=
  let st1 := { st with quitLevel := (0 : Int) }
  match st1.stack with
  | p :: rest =>
    if (getv st1.store p).type = ValueType.number then
      let (s', k) := IntM st1.store p
      OpRes.opok { st1 with store := s', stack := rest, quitLevel := k } true (some GoErr.exitRequested)
    else OpRes.opok st1 true (some GoErr.exitRequested)
  | [] => OpRes.opok st1 true (some GoErr.exitRequested)

/-- operation.go `PrintOperation` (`p`): duplicates the peek, rescales the
copy to the display precision and prints it with a newline.  On an empty
stack `Peek()` is nil and `Dup` dereferences it: a runtime panic. -/
def PrintOperation (st : Interp) : OpRes :=
  match st.stack with
  | [] => OpRes.panic
  | p :: _ =>
    let d := ((getv st.store p).dup).updatePrecision st.precision
    OpRes.opok (emit st (stringValue d ++ "\n")) true none

/-- operation.go `PopAndPrintOperation` (`n`). -/
def PopAndPrintOperation (st : Interp) : OpRes :=
  match st.stack with
  | [] => OpRes.opok st true (some GoErr.stackTooShort)
  | p :: rest =>
    let d := ((getv st.store p).dup).updatePrecision st.precision
    OpRes.opok (emit { st with stack := rest } (stringValue d)) true none

/-- operation.go `PushLengthOperation` (`z`). -/
def PushLengthOperation (st : Interp) : OpRes :=
  let (s', p) := alloc st.store (mkNum (st.stack.length : Int) 0)
  OpRes.opok { st with store := s', stack := p :: st.stack } true none

/-- operation.go `PrintStackOperation` (`f`): prints every element one per
line, top of stack first (the source defers the prints while walking bottom
to top). -/
def PrintStackOperation (st : Interp) : OpRes :=
  let lines := st.stack.map
    (fun p => stringValue (((getv st.store p).dup).updatePrecision st.precision) ++ "\n")
  OpRes.opok (emit st (String.join lines)) true none

/-- operation.go `ClearStackOperation` (`c`). -/
def ClearStackOperation (st : Interp) : OpRes :=
  OpRes.opok { st with stack := [] } true none

/-- operation.go `ModExponentOperation` (`|`): pops `e`, `m`, `n` (top to
bottom) and calls `n.ModExponent(m, e)`; on error the three popped operands
are *not* pushed back. -/
def ModExponentOperation (st : Interp) : OpRes :=
  match st.stack with
  | e :: m :: n :: rest =>
    match ModExponentM st.store n m e with
    | (s', some err) => OpRes.opok { st with store := s', stack := rest } true (some err)
    | (s', none) => OpRes.opok { st with store := s', stack := n :: rest } true none
  | _ => OpRes.opok st true (some GoErr.stackTooShort)

/-- operation.go `SetPrecisionOperation` (`k`): pops a value; a non-numeric
operand errors without being pushed back. -/
def SetPrecisionOperation (st : Interp) : OpRes :=
  match st.stack with
  | p :: rest =>
    match ensureNumeric [getv st.store p] with
    | some e => OpRes.opok { st with stack := rest } true (some e)
    | none =>
      let (s', k) := IntM st.store p
      OpRes.opok { st with store := s', stack := rest, precision := k } true none
  | [] => OpRes.opok st true (some GoErr.stackTooShort)

/-- operation.go `NotImplementedOperation`. -/
def NotImplementedOperation (st : Interp) : OpRes :=
  OpRes.opok st true (some GoErr.notImplemented)

/-- operation.go `CommentOperatorType.Operate` (`#`): finished exactly at a
newline, never errs. -/
def CommentOperator (st : Interp) (r : Char) : OpRes :=
  OpRes.opok st (r = '\n') none

/-- operation.go `RegisterOperation.Operate`: the first rune only arms the
operation; the second must be a register name, and the body then runs on
the main stack and that register, with the hungry flag reset afterwards. -/
def registerOperate (flagGet : Interp → Bool) (flagSet : Interp → Bool → Interp)
    (f : Interp → Char → Interp × Option GoErr) (st : Interp) (r : Char) : OpRes :=
  if flagGet st = false then OpRes.opok (flagSet st true) false none
  else if ¬ isRegister r then OpRes.opok (flagSet st false) true (some GoErr.notARegisterName)
  else
    match f st r with
    | (st1, e) => OpRes.opok (flagSet st1 false) true e

/-- operation.go: the body of `MoveToRegisterOperation` (`s<x>`): clear the
register, then move the popped top of the main stack into it. -/
def moveToRegF (st : Interp) (r : Char) : Interp × Option GoErr :=
  match st.stack with
  | p :: rest => (setReg { st with stack := rest } r [p], none)
  | [] => (st, some GoErr.stackTooShort)

/-- operation.go: the body of `MoveFromRegisterOperation` (`l<x>`): push the
register's peek onto the main stack — the very same pointer, not a copy. -/
def moveFromRegF (st : Interp) (r : Char) : Interp × Option GoErr :=
  match getReg st r with
  | p :: _ => ({ st with stack := p :: st.stack }, none)
  | [] => (st, some GoErr.stackTooShort)

/-- operation.go: the body of `MoveToRegisterStackOperation` (`S<x>`). -/
def moveToRegStackF (st : Interp) (r : Char) : Interp × Option GoErr :=
  match st.stack with
  | p :: rest => (setReg { st with stack := rest } r (p :: getReg st r), none)
  | [] => (st, some GoErr.stackTooShort)

/-- operation.go: the body of `MoveFromRegisterStackOperation` (`L<x>`). -/
def moveFromRegStackF (st : Interp) (r : Char) : Interp × Option GoErr :=
  match getReg st r with
  | p :: ps => (setReg { st with stack := p :: st.stack } r ps, none)
  | [] => (st, some GoErr.stackTooShort)

/-- operation.go `MoveToRegisterOperation` (`s<x>`). -/
def MoveToRegisterOperation : Interp → Char → OpRes :=
  registerOperate (fun st => st.regSState) (fun st b => { st with regSState := b }) moveToRegF

/-- operation.go `MoveFromRegisterOperation` (`l<x>`). -/
def MoveFromRegisterOperation : Interp → Char → OpRes :=
  registerOperate (fun st => st.regLState) (fun st b => { st with regLState := b }) moveFromRegF

/-- operation.go `MoveToRegisterStackOperation` (`S<x>`). -/
def MoveToRegisterStackOperation : Interp → Char → OpRes :=
  registerOperate (fun st => st.regSSState) (fun st b => { st with regSSState := b }) moveToRegStackF

/-- operation.go `MoveFromRegisterStackOperation` (`L<x>`). -/
def MoveFromRegisterStackOperation : Interp → Char → OpRes :=
  registerOperate (fun st => st.regLLState) (fun st b => { st with regLLState := b }) moveFromRegStackF

/-- interpreter.go `Interpreter.InterpretMacro`, parametrized by the
single-rune interpreter `ip` (the recursion is tied off by fuel in
`interpret`): feed each rune; when a rune yields exit-requested, continue
with the remaining runes if the quit level is zero, otherwise decrement it
and re-raise; other errors abort the macro; finally feed a space to flush a
pending numeric literal, discarding its error. -/
def interpretMacroAux (ip : Interp → Char → Res) : Interp → List Char → Res
  | st, [] =>
    match ip st ' ' with
    | Res.ok st' _ => Res.ok st' none
    | Res.panic => Res.panic
    | Res.nofuel => Res.nofuel
  | st, r :: rs =>
    match ip st r with
    | Res.ok st' none => interpretMacroAux ip st' rs
    | Res.ok st' (some e) =>
      if e = GoErr.exitRequested then
        if st'.quitLevel = 0 then interpretMacroAux ip st' rs
        else Res.ok { st' with quitLevel := st'.quitLevel - 1 } (some GoErr.exitRequested)
      else Res.ok st' (some e)
    | Res.panic => Res.panic
    | Res.nofuel => Res.nofuel

/-- operation.go `ExecuteMacroOperation` (`x`): pop the top; push a number
straight back; run a string as a macro. -/
def ExecuteMacroOperation (ip : Interp → Char → Res) (st : Interp) : OpRes :=
  match st.stack with
  | [] => OpRes.opok st true (some GoErr.stackTooShort)
  | p :: rest =>
    if (getv st.store p).type ≠ ValueType.string then OpRes.opok st true none
    else
      match interpretMacroAux ip { st with stack := rest } (getv st.store p).strval with
      | Res.ok st' e => OpRes.opok st' true e
      | Res.panic => OpRes.panic
      | Res.nofuel => OpRes.nofuel

/-- operation.go: the predicates of `ExecuteMacroIfGTOperation` and
friends: match the precisions of the two popped values (mutating them in
the store) and compare the scaled integers. -/
def cmpPredicate (t : CmpTag) (s : Store) (left right : Ptr) : Store × Bool :=
  let s1 := MatchPrecisionM s left right
  (s1,
    match t with
    | CmpTag.ltT => decide ((getv s1 left).intval < (getv s1 right).intval)
    | CmpTag.gtT => decide ((getv s1 left).intval > (getv s1 right).intval)
    | CmpTag.eqT => decide ((getv s1 left).intval = (getv s1 right).intval))

/-- operation.go `MacroOperation.Operate`: the shared body of the
conditional-macro operations.  `predTag`/`negated` encode the `Predicate`
field (`none` models a nil predicate, whose invocation panics), `opState`
the `State` flag; the returned boolean is the new `State`.  The first rune
arms the operation; the second must name a register whose top is a string,
with two numeric values on the main stack; the macro runs (after popping it
from the register and clearing `CurrentOperation`) exactly when the
predicate fires. -/
def macroOpOperate (ip : Interp → Char → Res) (predTag : Option CmpTag) (negated : Bool)
    (opState : Bool) (st : Interp) (r : Char) : Bool × OpRes :=
  if opState = false then (true, OpRes.opok st false none)
  else if ¬ isRegister r then (false, OpRes.opok st true (some GoErr.notARegisterName))
  else if st.stack.length < 2 then (false, OpRes.opok st true (some GoErr.stackTooShort))
  else
    match getReg st r with
    | [] => (false, OpRes.opok st true (some GoErr.stackTooShort))
    | mPtr :: ms =>
      if (getv st.store mPtr).type ≠ ValueType.string then
        (false, OpRes.opok st true (some GoErr.valueNotString))
      else
        match st.stack with
        | left :: right :: rest =>
          if (getv st.store left).type ≠ ValueType.number ∨
             (getv st.store right).type ≠ ValueType.number then
            (false, OpRes.opok { st with stack := rest } true (some GoErr.valueNotNumeric))
          else
            match predTag with
            | none => (false, OpRes.panic)
            | some t =>
              let (s1, base) := cmpPredicate t st.store left right
              let fire := if negated then !base else base
              let st1 := { st with store := s1, stack := rest }
              if fire = false then (false, OpRes.opok st1 true none)
              else
                let macroRunes := (getv s1 mPtr).strval
                let st2 := { setReg st1 r ms with current := none }
                match interpretMacroAux ip st2 macroRunes with
                | Res.ok st3 e => (false, OpRes.opok st3 true e)
                | Res.panic => (false, OpRes.panic)
                | Res.nofuel => (false, OpRes.nofuel)
        | _ => (false, OpRes.opok st true (some GoErr.stackTooShort))

/-- operation.go `ExecuteMacroIfGTOperation` (`>`). -/
def ExecuteMacroIfGTOperation (ip : Interp → Char → Res) (st : Interp) (r : Char) : OpRes :=
  match macroOpOperate ip (some CmpTag.gtT) false st.gtState st r with
  | (ns, res) => mapResState (fun s => { s with gtState := ns }) res

/-- operation.go `ExecuteMacroIfLTOperation` (`<`). -/
def ExecuteMacroIfLTOperation (ip : Interp → Char → Res) (st : Interp) (r : Char) : OpRes :=
  match macroOpOperate ip (some CmpTag.ltT) false st.ltState st r with
  | (ns, res) => mapResState (fun s => { s with ltState := ns }) res

/-- operation.go `ExecuteMacroIfEqOperation` (`=`). -/
def ExecuteMacroIfEqOperation (ip : Interp → Char → Res) (st : Interp) (r : Char) : OpRes :=
  match macroOpOperate ip (some CmpTag.eqT) false st.eqState st r with
  | (ns, res) => mapResState (fun s => { s with eqState := ns }) res

/-- operation.go `NegativeMacroOperation`: proxy one `Operate` call to the
inner `MacroOperation` (with negated predicate), then update the proxy's
`State` and `Op` fields according to the finished flag. -/
def negRunInner (ip : Interp → Char → Res) (inner : NegInner) (st : Interp) (r : Char) : OpRes :=
  match macroOpOperate ip inner.pred true inner.state st r with
  | (ns, OpRes.opok s fin e) =>
    if fin then OpRes.opok { s with negState := false, negInner := none } fin e
    else OpRes.opok { s with negState := true, negInner := some ⟨inner.pred, ns⟩ } fin e
  | (_, res) => res

/-- operation.go `NegativeMacroOperation.Operate` (`!`): the first rune
arms the proxy; the second selects the comparison to negate (anything else
allocates an inner operation with a nil predicate and reports
not-implemented without finishing); later runes are proxied to the inner
operation. -/
def ExecuteMacroNegativeOperation (ip : Interp → Char → Res) (st : Interp) (r : Char) : OpRes :=
  if st.negState = false then OpRes.opok { st with negState := true } false none
  else
    match st.negInner with
    | none =>
      match r with
      | '<' => negRunInner ip ⟨some CmpTag.ltT, false⟩ st r
      | '>' => negRunInner ip ⟨some CmpTag.gtT, false⟩ st r
      | '=' => negRunInner ip ⟨some CmpTag.eqT, false⟩ st r
      | _ => OpRes.opok { st with negInner := some ⟨none, false⟩ } false (some GoErr.notImplemented)
    | some inner => negRunInner ip inner st r

/-- Modelled from the spec: `SetInputRadixOperation` (`i`) is referenced by
the dispatch table in interpreter.go but its definition is not under src/.
Spec §4.6: pop a number and set `input_radix`, constrained to [2,16] (a
value outside the range is ignored here; no claim depends on it). -/
def SetInputRadixOperation (st : Interp) : OpRes :=
  match st.stack with
  | p :: rest =>
    match ensureNumeric [getv st.store p] with
    | some e => OpRes.opok { st with stack := rest } true (some e)
    | none =>
      let (s', k) := IntM st.store p
      if 2 ≤ k ∧ k ≤ 16 then
        OpRes.opok { st with store := s', stack := rest, inputRadix := k.toNat } true none
      else OpRes.opok { st with store := s', stack := rest } true none
  | [] => OpRes.opok st true (some GoErr.stackTooShort)

/-- Modelled from the spec: `SetOutputRadixOperation` (`o`), like `i` for
`output_radix`; not under src/. -/
def SetOutputRadixOperation (st : Interp) : OpRes :=
  match st.stack with
  | p :: rest =>
    match ensureNumeric [getv st.store p] with
    | some e => OpRes.opok { st with stack := rest } true (some e)
    | none =>
      let (s', k) := IntM st.store p
      if 2 ≤ k ∧ k ≤ 16 then
        OpRes.opok { st with store := s', stack := rest, outputRadix := k.toNat } true none
      else OpRes.opok { st with store := s', stack := rest } true none
  | [] => OpRes.opok st true (some GoErr.stackTooShort)

/-- Modelled from the spec: `GetInputRadixOperation` (`I`), push the current
input radix; not under src/. -/
def GetInputRadixOperation (st : Interp) : OpRes :=
  let (s', p) := alloc st.store (mkNum (st.inputRadix : Int) 0)
  OpRes.opok { st with store := s', stack := p :: st.stack } true none

/-- Modelled from the spec: `GetOutputRadixOperation` (`O`), push the
current output radix; not under src/. -/
def GetOutputRadixOperation (st : Interp) : OpRes :=
  let (s', p) := alloc st.store (mkNum (st.outputRadix : Int) 0)
  OpRes.opok { st with store := s', stack := p :: st.stack } true none

/-- Big-endian base-256 bytes of a natural number (most significant
first). -/
def natBytesAux : Nat → Nat → List Nat
  | 0, _ => []
  | fuel + 1, n => if n < 256 then [n] else natBytesAux fuel (n / 256) ++ [n % 256]

/-- Big-endian byte decomposition. -/
def natBytes (n : Nat) : List Nat :=
  natBytesAux (n + 1) n

/-- Modelled from the spec: `PrintRawOperation` (`P`) is referenced by the
dispatch table but not under src/.  Spec §4.6: pop the top (the tests
require the pop); a string prints its characters with no newline; a number
drops sign and fraction and writes the integer's big-endian bytes. -/
def PrintRawOperation (st : Interp) : OpRes :=
  match st.stack with
  | [] => OpRes.opok st true (some GoErr.stackTooShort)
  | p :: rest =>
    let v := getv st.store p
    if v.type = ValueType.string then
      OpRes.opok (emit { st with stack := rest } (String.mk v.strval)) true none
    else
      let n := (|(v.updatePrecision 0).intval|).toNat
      OpRes.opok (emit { st with stack := rest } (String.mk ((natBytes n).map Char.ofNat))) true none

/-- interpreter.go: the `Operations` dispatch table of `NewInterpreter`
(runes not in the table are silently ignored by `Interpret`). -/
def opTable (r : Char) : Option OpTag :=
  match r with
  | '0' | '1' | '2' | '3' | '4' | '5' | '6' | '7' | '8' | '9'
  | 'A' | 'B' | 'C' | 'D' | 'E' | 'F' | 'G' | 'H' | '.' | '_' =>
    some OpTag.numberBuilderOp
  | 'q' => some OpTag.quitOp
  | 'p' => some OpTag.printOp
  | 'P' => some OpTag.printRawOp
  | 'n' => some OpTag.popPrintOp
  | 'f' => some OpTag.printStackOp
  | '+' => some OpTag.addOp
  | '-' => some OpTag.subOp
  | '*' => some OpTag.mulOp
  | '/' => some OpTag.divOp
  | '%' => some OpTag.modOp
  | '~' => some OpTag.quotRemOp
  | '^' => some OpTag.expOp
  | '|' => some OpTag.modExpOp
  | 'v' => some OpTag.sqrtOp
  | 'c' => some OpTag.clearOp
  | 'd' => some OpTag.dupOp
  | 'r' => some OpTag.revOp
  | 's' => some OpTag.moveToRegOp
  | 'l' => some OpTag.moveFromRegOp
  | 'S' => some OpTag.moveToRegStackOp
  | 'L' => some OpTag.moveFromRegStackOp
  | 'k' => some OpTag.setPrecOp
  | 'i' => some OpTag.setIRadixOp
  | 'o' => some OpTag.setORadixOp
  | 'I' => some OpTag.getIRadixOp
  | 'O' => some OpTag.getORadixOp
  | '[' => some OpTag.stringBuilderOp
  | 'a' => some OpTag.notImplOp
  | 'x' => some OpTag.execOp
  | '>' => some OpTag.gtOp
  | '!' => some OpTag.negOp
  | '<' => some OpTag.ltOp
  | '=' => some OpTag.eqOp
  | '?' => some OpTag.notImplOp
  | 'Q' => some OpTag.macroQuitOp
  | 'Z' => some OpTag.notImplOp
  | 'X' => some OpTag.notImplOp
  | 'z' => some OpTag.pushLenOp
  | '#' => some OpTag.commentOp
  | ':' => some OpTag.notImplOp
  | ';' => some OpTag.notImplOp
  | _ => none

/-- One `Operation.Operate` call for the operation singleton named by the
tag (the interface dispatch of operation.go). -/
def dispatchOp (ip : Interp → Char → Res) (t : OpTag) (st : Interp) (r : Char) : OpRes :=
  match t with
  | OpTag.numberBuilderOp => nbOperate st r
  | OpTag.quitOp => QuitOperation st
  | OpTag.printOp => PrintOperation st
  | OpTag.printRawOp => PrintRawOperation st
  | OpTag.popPrintOp => PopAndPrintOperation st
  | OpTag.printStackOp => PrintStackOperation st
  | OpTag.addOp => AdditionOperation st
  | OpTag.subOp => SubtractionOperation st
  | OpTag.mulOp => MultiplicationOperation st
  | OpTag.divOp => DivisionOperation st
  | OpTag.modOp => ModuloOperation st
  | OpTag.quotRemOp => QuotientRemainderOperation st
  | OpTag.expOp => ExponentOperation st
  | OpTag.modExpOp => ModExponentOperation st
  | OpTag.sqrtOp => SqrtOperation st
  | OpTag.clearOp => ClearStackOperation st
  | OpTag.dupOp => DuplicationOperation st
  | OpTag.revOp => ReverseOperation st
  | OpTag.moveToRegOp => MoveToRegisterOperation st r
  | OpTag.moveFromRegOp => MoveFromRegisterOperation st r
  | OpTag.moveToRegStackOp => MoveToRegisterStackOperation st r
  | OpTag.moveFromRegStackOp => MoveFromRegisterStackOperation st r
  | OpTag.setPrecOp => SetPrecisionOperation st
  | OpTag.setIRadixOp => SetInputRadixOperation st
  | OpTag.setORadixOp => SetOutputRadixOperation st
  | OpTag.getIRadixOp => GetInputRadixOperation st
  | OpTag.getORadixOp => GetOutputRadixOperation st
  | OpTag.stringBuilderOp => sbOperate st r
  | OpTag.notImplOp => NotImplementedOperation st
  | OpTag.execOp => ExecuteMacroOperation ip st
  | OpTag.gtOp => ExecuteMacroIfGTOperation ip st r
  | OpTag.ltOp => ExecuteMacroIfLTOperation ip st r
  | OpTag.eqOp => ExecuteMacroIfEqOperation ip st r
  | OpTag.negOp => ExecuteMacroNegativeOperation ip st r
  | OpTag.macroQuitOp => MacroQuitOperation st
  | OpTag.pushLenOp => PushLengthOperation st
  | OpTag.commentOp => CommentOperator st r

/-- interpreter.go `Interpreter.Interpret`: route the rune to the current
operation, or look it up in the table (a miss is silently ignored); record
or clear `CurrentOperation` according to the finished flag; on the
reprocess sentinel, panic if an operation is still pending, otherwise
re-interpret the same rune.  The fuel only bounds the macro/reprocess
recursion that Go leaves unbounded. -/
def interpret : Nat → Interp → Char → Res
  | 0, _, _ => Res.nofuel
  | Nat.succ fuel, st, r =>
    let opT : Option OpTag :=
      match st.current with
      | some t => some t
      | none => opTable r
    match opT with
    | none => Res.ok st none
    | some t =>
      match dispatchOp (interpret fuel) t st r with
      | OpRes.panic => Res.panic
      | OpRes.nofuel => Res.nofuel
      | OpRes.opok st1 finished err =>
        let st2 := if finished then { st1 with current := none } else { st1 with current := some t }
        if err = some GoErr.continueProcessingRune then
          if st2.current ≠ none then Res.panic
          else interpret fuel st2 r
        else Res.ok st2 err

/-- interpreter.go `InterpretMacro` at a given fuel. -/
def interpretMacroN (fuel : Nat) : Interp → List Char → Res :=
  interpretMacroAux (interpret fuel)

/-- The result of the outer loop of dc.go: the final interpreter, the
errors it reported, and whether it stopped because of exit-requested. -/
inductive RunRes where
  | ok (st : Interp) (errs : List GoErr) (halted : Bool)
  | panic
  | nofuel
  deriving DecidableEq, Repr

/-- dc.go main loop body: feed runes one at a time; exit-requested stops
the loop, other errors are reported and the loop continues. -/
def runTopAux (ip : Interp → Char → Res) : Interp → List Char → List GoErr → RunRes
  | st, [], acc => RunRes.ok st acc false
  | st, r :: rs, acc =>
    match ip st r with
    | Res.ok st' none => runTopAux ip st' rs acc
    | Res.ok st' (some e) =>
      if e = GoErr.exitRequested then RunRes.ok st' acc true
      else runTopAux ip st' rs (acc ++ [e])
    | Res.panic => RunRes.panic
    | Res.nofuel => RunRes.nofuel

/-- dc.go: run a whole input through a fresh rune loop. -/
def runTop (fuel : Nat) (st : Interp) (input : List Char) : RunRes :=
  runTopAux (interpret fuel) st input []

/-- Observable projection of a run: output text, reported errors, halted
flag. -/
def topOut : RunRes → Option (String × List GoErr × Bool)
  | RunRes.ok st e h => some (st.output, e, h)
  | _ => none

/-- The main-stack values (top first) after a run. -/
def topStackVals : RunRes → Option (List Value)
  | RunRes.ok st _ _ => some (stackVals st)
  | _ => none

/-- The final interpreter of a run. -/
def topState : RunRes → Option Interp
  | RunRes.ok st _ _ => some st
  | _ => none

/-- The main-stack values (top first) after one `Operate` call. -/
def opStackVals : OpRes → Option (List Value)
  | OpRes.opok st _ _ => some (stackVals st)
  | _ => none

/-- number_builder.go (src/number_builder.go, the rational variant):
`strings.Replace(s, ".", "", 1)` on a rune list. -/
def removeFirstDot : List Char → List Char
  | [] => []
  | c :: rest => if c = '.' then rest else c :: removeFirstDot rest

/-- number_builder.go (src/number_builder.go, the rational variant)
`NumberBuilder.Flush`, reduced to the rational it pushes: with a decimal
point, the digits with the point removed form the numerator and
`radix ^ fracDigits` the denominator (where `fracDigits` counts the digits
after the last point); otherwise the digits parse as an integer.  The
result is negated when the sign flag is set.  The display precision is
never consulted. -/
def NumberBuilderFlushRat (buff : List Char) (dotSeen sign : Bool) (inputRadix : Nat) :
    Option ℚ :=
  if dotSeen then
    let fracDigits := ((splitDots buff).getLast?.getD []).length
    let withoutPoints := removeFirstDot buff
    match parseDigits inputRadix withoutPoints with
    | none => none
    | some numerator =>
      let denominator : Int := (inputRadix : Int) ^ fracDigits
      let num : ℚ := (numerator : ℚ) / (denominator : ℚ)
      some (if sign then -num else num)
  else
    match parseDigits inputRadix buff with
    | none => none
    | some numerator => some (if sign then -(numerator : ℚ) else (numerator : ℚ))

/-- The integer denoted by a digit string under a radix (specification-side
companion of `parseDigits`). -/
def digitsVal (radix : Nat) (cs : List Char) : Int :=
  cs.foldl (fun acc c => acc * radix + ((digitVal c).getD 0)) 0

/-- Every rune is a digit valid under the radix. -/
def ValidDigits (radix : Nat) (cs : List Char) : Prop :=
  ∀ c ∈ cs, ∃ d, digitVal c = some d ∧ d < radix

instance (radix : Nat) (cs : List Char) : Decidable (ValidDigits radix cs) := by
  unfold ValidDigits
  infer_instance

section StoreLemmas

theorem getv_setv_same (s : Store) (p : Ptr) (v : Value) (h : p < s.length) :
    getv (setv s p v) p = v := by
  simp [getv, setv, List.getD, List.getElem?_set_self h]

theorem getv_setv_ne (s : Store) (p q : Ptr) (v : Value) (h : q ≠ p) :
    getv (setv s q v) p = getv s p := by
  simp [getv, setv, List.getD, List.getElem?_set_ne h]

theorem setv_length (s : Store) (p : Ptr) (v : Value) :
    (setv s p v).length = s.length := by
  simp [setv]

theorem matchPrecisionM_length (s : Store) (a b : Ptr) :
    (MatchPrecisionM s a b).length = s.length := by
  unfold MatchPrecisionM
  dsimp only
  split <;> simp [setv]

/-- Pushing a freshly allocated value prepends it to the stack values. -/
theorem stackVals_alloc (st : Interp) (v : Value)
    (hvalid : ∀ p ∈ st.stack, p < st.store.length) :
    stackVals { st with store := (alloc st.store v).1,
                        stack := (alloc st.store v).2 :: st.stack } =
      v :: stackVals st := by
  simp only [stackVals, alloc, List.map_cons]
  have h1 : getv (st.store ++ [v]) st.store.length = v := by
    simp [getv, List.getD]
  have h2 : List.map (getv (st.store ++ [v])) st.stack = List.map (getv st.store) st.stack := by
    apply List.map_congr_left
    intro p hp
    have hlt := hvalid p hp
    simp [getv, List.getD, List.getElem?_append_left hlt]
  rw [h1, h2]

end StoreLemmas

section LiteralValue

theorem foldl_digitsVal (radix : Nat) (ys : List Char) :
    ∀ a : Int, ys.foldl (fun (acc : Int) c => acc * radix + ((digitVal c).getD 0)) a
      = a * radix ^ ys.length + digitsVal radix ys := by
  induction ys with
  | nil => intro a; simp [digitsVal]
  | cons c ys ih =>
    intro a
    have h1 := ih (a * radix + ((digitVal c).getD 0))
    have h2 := ih (((0 : Int)) * radix + ((digitVal c).getD 0))
    simp only [List.foldl_cons, digitsVal] at *
    rw [h1, h2]
    simp only [List.length_cons, pow_succ]
    ring

theorem digitsVal_append (radix : Nat) (xs ys : List Char) :
    digitsVal radix (xs ++ ys) =
      digitsVal radix xs * radix ^ ys.length + digitsVal radix ys := by
  unfold digitsVal
  rw [List.foldl_append]
  exact foldl_digitsVal radix ys _

theorem parseDigits_eq (radix : Nat) (cs : List Char) (hne : cs ≠ [])
    (hv : ValidDigits radix cs) :
    parseDigits radix cs = some (digitsVal radix cs) := by
  have key : ∀ (ds : List Char), ValidDigits radix ds → ∀ a : Int,
      ds.foldl (fun (acc : Option Int) c =>
        match acc, digitVal c with
        | some n, some d => if d < radix then some (n * radix + d) else none
        | _, _ => none) (some a)
        = some (ds.foldl (fun (acc : Int) c => acc * radix + ((digitVal c).getD 0)) a) := by
    intro ds
    induction ds with
    | nil => intro _ a; simp
    | cons c ds ih =>
      intro hvd a
      obtain ⟨d, hd, hdr⟩ := hvd c (List.mem_cons_self c ds)
      have hvd' : ValidDigits radix ds := fun x hx => hvd x (List.mem_cons_of_mem c hx)
      simp only [List.foldl_cons, hd, hdr, if_true]
      rw [ih hvd' (a * radix + d)]
      simp [hd]
  cases cs with
  | nil => exact absurd rfl hne
  | cons c cs' =>
    unfold parseDigits
    exact key (c :: cs') hv 0

theorem validDigits_no_dot (radix : Nat) (cs : List Char) (hv : ValidDigits radix cs) :
    '.' ∉ cs := by
  intro hmem
  obtain ⟨d, hd, _⟩ := hv '.' hmem
  simp [digitVal] at hd

theorem splitDots_nodot (cs : List Char) (h : '.' ∉ cs) : splitDots cs = [cs] := by
  induction cs with
  | nil => rfl
  | cons c cs ih =>
    have hc : c ≠ '.' := fun hx => h (hx ▸ List.mem_cons_self c cs)
    have hcs : '.' ∉ cs := fun hx => h (List.mem_cons_of_mem c hx)
    unfold splitDots
    rw [ih hcs]
    simp [hc]

theorem splitDots_append (ip fp : List Char) (hip : '.' ∉ ip) (hfp : '.' ∉ fp) :
    splitDots (ip ++ '.' :: fp) = [ip, fp] := by
  induction ip with
  | nil =>
    unfold splitDots
    rw [List.nil_append]
    show (match splitDots fp with
      | [] => [[]]
      | g :: gs => if '.' = '.' then [] :: g :: gs else ('.' :: g) :: gs) = [[], fp]
    rw [splitDots_nodot fp hfp]
    simp
  | cons c ip ih =>
    have hc : c ≠ '.' := fun hx => hip (hx ▸ List.mem_cons_self c ip)
    have hip' : '.' ∉ ip := fun hx => hip (List.mem_cons_of_mem c hx)
    simp only [List.cons_append, splitDots, hc, if_neg, if_false, ite_false,
      List.append_eq]
    rw [ih hip']

theorem removeFirstDot_append (ip fp : List Char) (hip : '.' ∉ ip) :
    removeFirstDot (ip ++ '.' :: fp) = ip ++ fp := by
  induction ip with
  | nil => simp [removeFirstDot]
  | cons c ip ih =>
    have hc : c ≠ '.' := fun hx => hip (hx ▸ List.mem_cons_self c ip)
    have hip' : '.' ∉ ip := fun hx => hip (List.mem_cons_of_mem c hx)
    simp [removeFirstDot, hc, ih hip']

theorem fixed_div_val (I F : Int) (Pt k : Nat) (hk : k ≤ Pt) :
    ((I * 10 ^ Pt + F * 10 ^ (Pt - k) : ℤ) : ℚ) / 10 ^ Pt =
      (I : ℚ) + (F : ℚ) / 10 ^ k := by
  have hpow : (10:ℚ) ^ k * 10 ^ (Pt - k) = 10 ^ Pt := pow_mul_pow_sub (10:ℚ) hk
  have hne : (10:ℚ) ^ Pt ≠ 0 := by positivity
  have hnek : (10:ℚ) ^ (Pt - k) ≠ 0 := by positivity
  push_cast
  rw [add_div, mul_div_cancel_right₀ _ hne, ← hpow, mul_div_mul_right _ _ hnek]

end LiteralValue

/-- Claim C10: the spec requires every stack-consuming operation to return
*stack-too-short* when operands are missing, `p` in particular.  The code's
`PrintOperation` calls `i.Stack.Peek().Dup()` without a length check, so on
an empty main stack `Peek()` returns nil and `Dup` dereferences it: the
dispatcher panics instead of returning an error.  This theorem evaluates
the code at the failing input. -/
theorem c10_print_empty_fault :
    interpret 1 newInterpreter 'p' = Res.panic ∧
    interpret 1 newInterpreter 'p' ≠ Res.ok newInterpreter (some GoErr.stackTooShort) := by
  constructor
  · rfl
  · decide

/-- Claim C3: the spec (and the repository's own test
`TestPrintOperations/test a string with nested brackets`) requires `[`…`]`
literals to honor nested brackets via a depth counter.  The code's
`StringBuilder.Operate` has no counter: an inner `[` resets the buffer and
the first `]` completes the literal.  Feeding `[a string with [nested]`
already pushes the string `nested`; the remainder of the full test input is
then misinterpreted as commands (`r`, `a`, `k`, `s]` all fail, `c` clears
the stack), so the full input ends with an empty stack and four reported
errors instead of one pushed string. -/
theorem c3_nested_bracket_eval :
    topStackVals (runTop 30 newInterpreter ("[a string with [nested]".toList)) =
      some [mkStr ("nested".toList)] ∧
    topOut (runTop 30 newInterpreter ("[a string with [nested] brackets]".toList)) =
      some ("", [GoErr.stackTooShort, GoErr.notImplemented, GoErr.stackTooShort,
                 GoErr.notARegisterName], false) ∧
    topStackVals (runTop 30 newInterpreter ("[a string with [nested] brackets]".toList)) =
      some [] := by
  refine ⟨by decide, by decide, by decide⟩

/-- Claim C2, counterexample: `|` with a string on top of the stack (above
the numbers 4 and 3) returns a not-a-number error but pops all three
operands without restoring them: the stack is empty afterwards, not equal
to its pre-operation state. -/
theorem c2_error_restore_cex :
    ModExponentOperation
        { newInterpreter with
          store := [mkNum 3 0, mkNum 4 0, mkStr ['s']], stack := [2, 1, 0] } =
      OpRes.opok
        { newInterpreter with
          store := [mkNum 3 0, mkNum 4 0, mkStr ['s']], stack := [] }
        true (some GoErr.notANumber) ∧
    stackVals { newInterpreter with
                store := [mkNum 3 0, mkNum 4 0, mkStr ['s']], stack := [2, 1, 0] } ≠ [] := by
  refine ⟨by decide, by decide⟩

/-- Claim C6, counterexample: `^` with the numeric operands 2 (left) and
-0.5 (right, the exponent, stored as intval -5 at precision 1) fails with
*whole-exponents-only*, but the operands pushed back are not the original
values: `Value.Exponent` truncates the exponent to precision 0 *before* the
positivity check, so the restored top of stack is -1 at precision 0 instead
of -0.5. -/
theorem c6_exponent_restore_cex :
    opStackVals (ExponentOperation
        { newInterpreter with store := [mkNum 2 0, mkNum (-5) 1], stack := [1, 0] }) =
      some [mkNum (-1) 0, mkNum 2 0] ∧
    opErr (ExponentOperation
        { newInterpreter with store := [mkNum 2 0, mkNum (-5) 1], stack := [1, 0] }) =
      some GoErr.wholeExponentsOnly ∧
    stackVals { newInterpreter with store := [mkNum 2 0, mkNum (-5) 1], stack := [1, 0] } =
      [mkNum (-5) 1, mkNum 2 0] ∧
    ([mkNum (-1) 0, mkNum 2 0] : List Value) ≠ [mkNum (-5) 1, mkNum 2 0] := by
  refine ⟨by decide, by decide, by decide, by decide⟩

/-- Claim C7, counterexample: `~` on 365 and 7 leaves the *quotient* 52 on
top of the stack and the remainder 1 beneath it — the source pushes
`[]*Value{r, q}`, remainder first — contradicting the claim that the
remainder ends on top. -/
theorem c7_quot_rem_order_cex :
    opStackVals (QuotientRemainderOperation
        { newInterpreter with store := [mkNum 365 0, mkNum 7 0], stack := [1, 0] }) =
      some [mkNum 52 0, mkNum 1 0] ∧
    ([mkNum 52 0, mkNum 1 0] : List Value) ≠ [mkNum 1 0, mkNum 52 0] := by
  refine ⟨by decide, by decide⟩

/-- Claim C8, counterexample: after `5sa la1+`, the addition mutated the
very rational still stored in register `a` (because `l` pushes the
register's peek pointer, not a copy): the register now reads 6, not the 5
the claim requires it to keep. -/
theorem c8_register_alias_cex :
    (topState (runTop 20 newInterpreter ("5sa la1+".toList))).map
        (fun st => regTopVal st 'a') = some (some (mkNum 6 0)) ∧
    (some (mkNum 6 0) : Option Value) ≠ some (mkNum 5 0) := by
  refine ⟨by decide, by decide⟩

/-- Claim C1: `Q` with argument `n` terminates exactly `n` enclosing macro
frames and the `(n+1)`-th frame's remaining characters are executed.  The
first conjunct is the frame-boundary discipline of `InterpretMacro`,
quantified over every interpreter state and hence over every nesting depth:
when interpreting a rune raises exit-requested, a frame with a positive quit
level decrements it and re-raises (unwinding itself), and a frame that sees
quit level zero continues with the remaining characters of its own macro.
`Q` pops `n` and sets the quit level to `n`, so `n` successive frames unwind
and the `(n+1)`-th resumes.  The second conjunct checks the spec's concrete
scenario: `[3Q][x1][x2][x3][x4][x5]x` with `f` appended prints the lines
5, 4, 3 (top first) and reports no error. -/
theorem c1_macro_quit_unwind :
    (∀ (fuel : Nat) (st st' : Interp) (r : Char) (rest : List Char),
      interpret fuel st r = Res.ok st' (some GoErr.exitRequested) →
      (st'.quitLevel = 0 →
        interpretMacroN fuel st (r :: rest) = interpretMacroN fuel st' rest) ∧
      (st'.quitLevel ≠ 0 →
        interpretMacroN fuel st (r :: rest) =
          Res.ok { st' with quitLevel := st'.quitLevel - 1 } (some GoErr.exitRequested))) ∧
    topOut (runTop 40 newInterpreter ("[3Q][x1][x2][x3][x4][x5]xf".toList)) =
      some ("5\n4\n3\n", [], false) := by
  constructor
  · intro fuel st st' r rest h
    constructor
    · intro hq
      simp [interpretMacroN, interpretMacroAux, h, hq]
    · intro hq
      simp [interpretMacroN, interpretMacroAux, h, hq]
  · decide

/-- Claim C1, witness: interpreting `Q` with 3 on the stack raises
exit-requested with quit level 3; the innermost frame decrements it to 2
and re-raises. -/
theorem c1_macro_quit_unwind_witness :
    interpretMacroN 1 { newInterpreter with store := [mkNum 3 0], stack := [0] } ['Q'] =
      Res.ok { newInterpreter with store := [mkNum 3 0], stack := [], quitLevel := 2 }
        (some GoErr.exitRequested) :=
  (c1_macro_quit_unwind.1 1
      { newInterpreter with store := [mkNum 3 0], stack := [0] }
      { newInterpreter with store := [mkNum 3 0], stack := [], quitLevel := 3 }
      'Q' [] (by decide)).2 (by decide)

/-- Claim C9: with two numeric operands, `/` fails with *divide-by-zero*
exactly when the popped top of stack (the divisor) is zero, and on that
failure the operation returns the interpreter unchanged — both operands
back in place.  Concretely, `10 0/` surfaces one divide-by-zero error and
leaves the stack holding 10 then 0 (bottom to top). -/
theorem c9_divide_by_zero :
    (∀ (st : Interp) (a b : Ptr) (rest : List Ptr),
      st.stack = a :: b :: rest →
      (getv st.store a).type = ValueType.number →
      (getv st.store b).type = ValueType.number →
      ((opErr (DivisionOperation st) = some GoErr.divideByZero) ↔
        (getv st.store a).intval = 0) ∧
      ((getv st.store a).intval = 0 →
        DivisionOperation st = OpRes.opok st true (some GoErr.divideByZero))) ∧
    topOut (runTop 10 newInterpreter ("10 0/".toList)) =
      some ("", [GoErr.divideByZero], false) ∧
    topStackVals (runTop 10 newInterpreter ("10 0/".toList)) =
      some [mkNum 0 0, mkNum 10 0] := by
  refine ⟨?_, by decide, by decide⟩
  intro st a b rest hs ha hb
  by_cases hz : (getv st.store a).intval = 0
  · have hrun : DivisionOperation st = OpRes.opok st true (some GoErr.divideByZero) := by
      have : DivisionOperation st =
          OpRes.opok { st with store := st.store, stack := a :: b :: rest } true
            (some GoErr.divideByZero) := by
        simp [DivisionOperation, makeBinaryOperation, hs, DivisionF, ensureNumeric,
              DivideM, ha, hb, hz]
      rw [this, ← hs]
    exact ⟨by rw [hrun]; simp [opErr, hz], fun _ => hrun⟩
  · have hrun : opErr (DivisionOperation st) = none := by
      simp [DivisionOperation, makeBinaryOperation, hs, DivisionF, ensureNumeric,
            DivideM, ha, hb, hz, opErr]
    refine ⟨?_, fun h => absurd h hz⟩
    rw [hrun]
    simp [hz]

/-- Claim C9, witness: `/` applied to the stack `10 0` (top first `0`). -/
theorem c9_divide_by_zero_witness :
    DivisionOperation { newInterpreter with store := [mkNum 10 0, mkNum 0 0], stack := [1, 0] } =
      OpRes.opok { newInterpreter with store := [mkNum 10 0, mkNum 0 0], stack := [1, 0] }
        true (some GoErr.divideByZero) :=
  ((c9_divide_by_zero.1
      { newInterpreter with store := [mkNum 10 0, mkNum 0 0], stack := [1, 0] }
      1 0 [] rfl (by decide) (by decide)).2 (by decide))

/-- Claim C8 (amended): `l<x>` pushes the register's peek itself — the same
pointer, not a copy — so the register is left unmutated by `l` itself and
still shares its rational with the pushed value; a later in-place mutation
of the pushed value (such as `1+`) therefore also changes the value stored
in the register, as the concrete run `5sa la1+` shows (register `a` ends
holding 6).  `l` on an empty register fails with stack-too-short. -/
theorem c8_load_alias_amended :
    (∀ (st : Interp) (c : Char),
      isRegister c = true →
      st.regLState = true →
      ((getReg st c = [] →
        MoveFromRegisterOperation st c =
          OpRes.opok { st with regLState := false } true (some GoErr.stackTooShort)) ∧
       (∀ (p : Ptr) (ps : List Ptr), getReg st c = p :: ps →
        MoveFromRegisterOperation st c =
          OpRes.opok { st with stack := p :: st.stack, regLState := false } true none))) ∧
    (topState (runTop 20 newInterpreter ("5sa la1+".toList))).map
        (fun st => regTopVal st 'a') = some (some (mkNum 6 0)) := by
  refine ⟨?_, by decide⟩
  intro st c hreg hflag
  constructor
  · intro hempty
    simp [MoveFromRegisterOperation, registerOperate, hflag, hreg, moveFromRegF, hempty]
  · intro p ps hcons
    simp [MoveFromRegisterOperation, registerOperate, hflag, hreg, moveFromRegF, hcons]

/-- Claim C8, witness: loading from register `a` (holding the value 5 at
pointer 0) pushes pointer 0 itself onto the main stack. -/
theorem c8_load_alias_amended_witness :
    MoveFromRegisterOperation
        { newInterpreter with
          store := [mkNum 5 0],
          regs := (List.replicate 26 ([] : List Ptr)).set 0 [0], regLState := true } 'a' =
      OpRes.opok
        { newInterpreter with
          store := [mkNum 5 0],
          regs := (List.replicate 26 ([] : List Ptr)).set 0 [0],
          stack := [0], regLState := false } true none :=
  (c8_load_alias_amended.1 _ 'a' (by decide) rfl).2 0 [] (by decide)

section RestoreLemmas

theorem AddM_err (s : Store) (np mp : Ptr) (e : GoErr)
    (h : (AddM s np mp).2 = some e) : (AddM s np mp).1 = s := by
  by_cases h1 : (getv s np).type ≠ ValueType.number
  · simp [AddM, h1]
  · by_cases h2 : (getv s mp).type ≠ ValueType.number
    · simp [AddM, h1, h2]
    · simp [AddM, h1, h2] at h

theorem SubtractM_err (s : Store) (np mp : Ptr) (e : GoErr)
    (h : (SubtractM s np mp).2 = some e) : (SubtractM s np mp).1 = s := by
  by_cases h1 : (getv s np).type ≠ ValueType.number
  · simp [SubtractM, h1]
  · by_cases h2 : (getv s mp).type ≠ ValueType.number
    · simp [SubtractM, h1, h2]
    · simp [SubtractM, h1, h2] at h

theorem MultiplyM_err (s : Store) (np mp : Ptr) (e : GoErr)
    (h : (MultiplyM s np mp).2 = some e) : (MultiplyM s np mp).1 = s := by
  by_cases h1 : (getv s np).type ≠ ValueType.number
  · simp [MultiplyM, h1]
  · by_cases h2 : (getv s mp).type ≠ ValueType.number
    · simp [MultiplyM, h1, h2]
    · simp [MultiplyM, h1, h2] at h

theorem DivideM_err (s : Store) (np mp : Ptr) (e : GoErr)
    (h : (DivideM s np mp).2 = some e) : (DivideM s np mp).1 = s := by
  by_cases h1 : (getv s np).type ≠ ValueType.number
  · simp [DivideM, h1]
  · by_cases h2 : (getv s mp).type ≠ ValueType.number
    · simp [DivideM, h1, h2]
    · by_cases h3 : (getv s mp).intval = 0
      · simp [DivideM, h1, h2, h3]
      · simp [DivideM, h1, h2, h3] at h

theorem QuotientRemainderM_err (s : Store) (np mp : Ptr) (e : GoErr)
    (h : (QuotientRemainderM s np mp).2.2 = some e) : (QuotientRemainderM s np mp).1 = s := by
  by_cases h1 : (getv s np).type ≠ ValueType.number
  · simp [QuotientRemainderM, h1]
  · by_cases h2 : (getv s mp).type ≠ ValueType.number
    · simp [QuotientRemainderM, h1, h2]
    · by_cases h3 : (getv s mp).intval = 0
      · simp [QuotientRemainderM, h1, h2, h3]
      · simp [QuotientRemainderM, h1, h2, h3] at h

theorem SqrtM_err (s : Store) (p : Ptr) (e : GoErr)
    (h : (SqrtM s p).2 = some e) : (SqrtM s p).1 = s := by
  by_cases h1 : (getv s p).type ≠ ValueType.number
  · simp [SqrtM, h1]
  · by_cases h2 : (getv s p).intval < 0
    · simp [SqrtM, h1, h2]
    · simp [SqrtM, h1, h2] at h

/-- The error paths of `ExponentM` never yield *value-not-numeric*. -/
theorem ExponentM_not_vnn (s : Store) (np mp : Ptr) :
    (ExponentM s np mp).2 ≠ some GoErr.valueNotNumeric := by
  by_cases h1 : (getv s np).type ≠ ValueType.number
  · simp [ExponentM, h1]
  · by_cases h2 : (getv s mp).type ≠ ValueType.number
    · simp [ExponentM, h1, h2]
    · by_cases h3 : (getv (UpdatePrecisionM s mp 0) mp).intval ≤ 0
      · simp [ExponentM, h1, h2, h3]
      · simp [ExponentM, h1, h2, h3]

theorem AdditionF_err (s : Store) (l r : Ptr) (e : GoErr)
    (h : (AdditionF s l r).2.2 = some e) : (AdditionF s l r).1 = s := by
  cases hEN : ensureNumeric [getv s l, getv s r] with
  | some e' => simp [AdditionF, hEN]
  | none =>
    rcases hA : AddM s l r with ⟨s', err⟩
    cases err with
    | none => simp [AdditionF, hEN, hA] at h
    | some e' =>
      have h2 : s' = s := by
        have h3 := AddM_err s l r e' (by rw [hA])
        rw [hA] at h3
        exact h3
      simp [AdditionF, hEN, hA, h2]

theorem SubtractionF_err (s : Store) (l r : Ptr) (e : GoErr)
    (h : (SubtractionF s l r).2.2 = some e) : (SubtractionF s l r).1 = s := by
  cases hEN : ensureNumeric [getv s l, getv s r] with
  | some e' => simp [SubtractionF, hEN]
  | none =>
    rcases hA : SubtractM s l r with ⟨s', err⟩
    cases err with
    | none => simp [SubtractionF, hEN, hA] at h
    | some e' =>
      have h2 : s' = s := by
        have h3 := SubtractM_err s l r e' (by rw [hA])
        rw [hA] at h3
        exact h3
      simp [SubtractionF, hEN, hA, h2]

theorem MultiplicationF_err (s : Store) (l r : Ptr) (e : GoErr)
    (h : (MultiplicationF s l r).2.2 = some e) : (MultiplicationF s l r).1 = s := by
  cases hEN : ensureNumeric [getv s l, getv s r] with
  | some e' => simp [MultiplicationF, hEN]
  | none =>
    rcases hA : MultiplyM s l r with ⟨s', err⟩
    cases err with
    | none => simp [MultiplicationF, hEN, hA] at h
    | some e' =>
      have h2 : s' = s := by
        have h3 := MultiplyM_err s l r e' (by rw [hA])
        rw [hA] at h3
        exact h3
      simp [MultiplicationF, hEN, hA, h2]

theorem DivisionF_err (s : Store) (l r : Ptr) (e : GoErr)
    (h : (DivisionF s l r).2.2 = some e) : (DivisionF s l r).1 = s := by
  cases hEN : ensureNumeric [getv s l, getv s r] with
  | some e' => simp [DivisionF, hEN]
  | none =>
    rcases hA : DivideM s l r with ⟨s', err⟩
    cases err with
    | none => simp [DivisionF, hEN, hA] at h
    | some e' =>
      have h2 : s' = s := by
        have h3 := DivideM_err s l r e' (by rw [hA])
        rw [hA] at h3
        exact h3
      simp [DivisionF, hEN, hA, h2]

theorem ModuloF_err (s : Store) (l r : Ptr) (e : GoErr)
    (h : (ModuloF s l r).2.2 = some e) : (ModuloF s l r).1 = s := by
  cases hEN : ensureNumeric [getv s l, getv s r] with
  | some e' => simp [ModuloF, hEN]
  | none =>
    rcases hA : QuotientRemainderM s l r with ⟨s', qr, err⟩
    cases err with
    | none =>
      cases qr with
      | none => simp [ModuloF, hEN, hA] at h
      | some p => simp [ModuloF, hEN, hA] at h
    | some e' =>
      have h2 : s' = s := by
        have h3 := QuotientRemainderM_err s l r e' (by rw [hA])
        rw [hA] at h3
        exact h3
      cases qr with
      | none => simp [ModuloF, hEN, hA, h2]
      | some p => simp [ModuloF, hEN, hA, h2]

theorem QuotientRemainderF_err (s : Store) (l r : Ptr) (e : GoErr)
    (h : (QuotientRemainderF s l r).2.2 = some e) : (QuotientRemainderF s l r).1 = s := by
  cases hEN : ensureNumeric [getv s l, getv s r] with
  | some e' => simp [QuotientRemainderF, hEN]
  | none =>
    rcases hA : QuotientRemainderM s l r with ⟨s', qr, err⟩
    cases err with
    | none =>
      cases qr with
      | none => simp [QuotientRemainderF, hEN, hA] at h
      | some p => simp [QuotientRemainderF, hEN, hA] at h
    | some e' =>
      have h2 : s' = s := by
        have h3 := QuotientRemainderM_err s l r e' (by rw [hA])
        rw [hA] at h3
        exact h3
      cases qr with
      | none => simp [QuotientRemainderF, hEN, hA, h2]
      | some p => simp [QuotientRemainderF, hEN, hA, h2]

theorem SqrtF_err (s : Store) (p : Ptr) (e : GoErr)
    (h : (SqrtF s p).2.2 = some e) : (SqrtF s p).1 = s := by
  rcases hA : SqrtM s p with ⟨s', err⟩
  cases err with
  | none => simp [SqrtF, hA] at h
  | some e' =>
    have h2 : s' = s := by
      have h3 := SqrtM_err s p e' (by rw [hA])
      rw [hA] at h3
      exact h3
    simp [SqrtF, hA, h2]

/-- `makeBinaryOperation` returns the interpreter untouched on any error,
whenever the body leaves the store untouched when it errs (which every
binary body except `ExponentF` does). -/
theorem makeBinary_err_restore (f : Store → Ptr → Ptr → Store × List Ptr × Option GoErr)
    (hf : ∀ s l r e, (f s l r).2.2 = some e → (f s l r).1 = s) :
    ∀ (st : Interp) (e : GoErr), opErr (makeBinaryOperation f st) = some e →
      makeBinaryOperation f st = OpRes.opok st true (some e) := by
  intro st e h
  cases hs : st.stack with
  | nil =>
    have hrun : makeBinaryOperation f st = OpRes.opok st true (some GoErr.stackTooShort) := by
      simp [makeBinaryOperation, hs]
    rw [hrun] at h ⊢
    simp only [opErr, Option.some.injEq] at h
    rw [← h]
  | cons right tl =>
    cases tl with
    | nil =>
      have hrun : makeBinaryOperation f st = OpRes.opok st true (some GoErr.stackTooShort) := by
        simp [makeBinaryOperation, hs]
      rw [hrun] at h ⊢
      simp only [opErr, Option.some.injEq] at h
      rw [← h]
    | cons left rest =>
      rcases hf' : f st.store left right with ⟨s', nums, err⟩
      cases err with
      | none =>
        have hrun : makeBinaryOperation f st =
            OpRes.opok { st with store := s', stack := nums.reverse ++ rest } true none := by
          simp [makeBinaryOperation, hs, hf']
        rw [hrun] at h
        simp [opErr] at h
      | some e' =>
        have hstore : s' = st.store := by
          have h2 := hf st.store left right e' (by rw [hf'])
          rw [hf'] at h2
          exact h2
        have hrun : makeBinaryOperation f st = OpRes.opok st true (some e') := by
          have hx : makeBinaryOperation f st =
              OpRes.opok { st with store := s', stack := right :: left :: rest } true (some e') := by
            simp [makeBinaryOperation, hs, hf']
          rw [hx, hstore, ← hs]
        rw [hrun] at h ⊢
        simp only [opErr, Option.some.injEq] at h
        rw [← h]

/-- `makeUnaryOperation` returns the interpreter untouched on any error,
whenever the body leaves the store untouched when it errs. -/
theorem makeUnary_err_restore (f : Store → Ptr → Store × List Ptr × Option GoErr)
    (hf : ∀ s p e, (f s p).2.2 = some e → (f s p).1 = s) :
    ∀ (st : Interp) (e : GoErr), opErr (makeUnaryOperation f st) = some e →
      makeUnaryOperation f st = OpRes.opok st true (some e) := by
  intro st e h
  cases hs : st.stack with
  | nil =>
    have hrun : makeUnaryOperation f st = OpRes.opok st true (some GoErr.stackTooShort) := by
      simp [makeUnaryOperation, hs]
    rw [hrun] at h ⊢
    simp only [opErr, Option.some.injEq] at h
    rw [← h]
  | cons val rest =>
    rcases hf' : f st.store val with ⟨s', nums, err⟩
    cases err with
    | none =>
      have hrun : makeUnaryOperation f st =
          OpRes.opok { st with store := s', stack := nums.reverse ++ rest } true none := by
        simp [makeUnaryOperation, hs, hf']
      rw [hrun] at h
      simp [opErr] at h
    | some e' =>
      have hstore : s' = st.store := by
        have h2 := hf st.store val e' (by rw [hf'])
        rw [hf'] at h2
        exact h2
      have hrun : makeUnaryOperation f st = OpRes.opok st true (some e') := by
        have hx : makeUnaryOperation f st =
            OpRes.opok { st with store := s', stack := val :: rest } true (some e') := by
          simp [makeUnaryOperation, hs, hf']
        rw [hx, hstore, ← hs]
      rw [hrun] at h ⊢
      simp only [opErr, Option.some.injEq] at h
      rw [← h]

end RestoreLemmas

/-- Claim C2 (amended): errors other than exit-requested from the
operations built on the restoring wrappers `makeUnaryOperation` /
`makeBinaryOperation` leave the interpreter — in particular the main
stack — exactly as before the operation.  The ternary `|` mod-exponent
and the two-rune conditional operations, however, pop their operands and
do *not* restore them on error: `|` drops its three operands on any of its
errors, and a conditional with a non-numeric operand drops the two popped
values. -/
theorem c2_error_restore_amended :
    (∀ op ∈ [AdditionOperation, SubtractionOperation, MultiplicationOperation,
             DivisionOperation, ModuloOperation, QuotientRemainderOperation],
      ∀ (st : Interp) (e : GoErr), opErr (op st) = some e →
        op st = OpRes.opok st true (some e)) ∧
    (∀ (st : Interp) (e : GoErr), opErr (SqrtOperation st) = some e →
      SqrtOperation st = OpRes.opok st true (some e)) ∧
    (∀ (st : Interp) (a b c : Ptr) (rest : List Ptr) (e : GoErr),
      st.stack = a :: b :: c :: rest →
      opErr (ModExponentOperation st) = some e →
      ∃ s', ModExponentOperation st =
        OpRes.opok { st with store := s', stack := rest } true (some e)) ∧
    (∀ (fuel : Nat) (st : Interp) (c : Char) (a b : Ptr) (rest : List Ptr)
       (mPtr : Ptr) (ms : List Ptr),
      isRegister c = true → st.ltState = true →
      st.stack = a :: b :: rest →
      getReg st c = mPtr :: ms →
      (getv st.store mPtr).type = ValueType.string →
      ((getv st.store a).type ≠ ValueType.number ∨
       (getv st.store b).type ≠ ValueType.number) →
      ExecuteMacroIfLTOperation (interpret fuel) st c =
        OpRes.opok { st with stack := rest, ltState := false } true
          (some GoErr.valueNotNumeric)) := by
  refine ⟨?_, ?_, ?_, ?_⟩
  · intro op hop
    simp only [List.mem_cons, List.mem_singleton, List.not_mem_nil, or_false] at hop
    rcases hop with rfl | rfl | rfl | rfl | rfl | rfl
    · exact makeBinary_err_restore AdditionF AdditionF_err
    · exact makeBinary_err_restore SubtractionF SubtractionF_err
    · exact makeBinary_err_restore MultiplicationF MultiplicationF_err
    · exact makeBinary_err_restore DivisionF DivisionF_err
    · exact makeBinary_err_restore ModuloF ModuloF_err
    · exact makeBinary_err_restore QuotientRemainderF QuotientRemainderF_err
  · exact makeUnary_err_restore SqrtF SqrtF_err
  · intro st a b c rest e hs h
    rcases hM : ModExponentM st.store c b a with ⟨s', err⟩
    cases err with
    | none =>
      have hrun : ModExponentOperation st =
          OpRes.opok { st with store := s', stack := c :: rest } true none := by
        simp [ModExponentOperation, hs, hM]
      rw [hrun] at h
      simp [opErr] at h
    | some e' =>
      refine ⟨s', ?_⟩
      have hrun : ModExponentOperation st =
          OpRes.opok { st with store := s', stack := rest } true (some e') := by
        simp [ModExponentOperation, hs, hM]
      rw [hrun] at h ⊢
      simp only [opErr, Option.some.injEq] at h
      rw [← h]
  · intro fuel st c a b rest mPtr ms hreg hflag hs hregc hstr hnn
    have hlen2 : ¬ (rest.length + 1 + 1 < 2) := by omega
    simp [ExecuteMacroIfLTOperation, macroOpOperate, hflag, hreg, hs, hregc, hstr,
          mapResState, hnn, hlen2]

/-- Claim C2, witness: `/` on the stack `10 0` errs with divide-by-zero and
restores the interpreter unchanged. -/
theorem c2_error_restore_amended_witness :
    DivisionOperation
        { newInterpreter with store := [mkNum 10 0, mkNum 0 0], stack := [1, 0] } =
      OpRes.opok { newInterpreter with store := [mkNum 10 0, mkNum 0 0], stack := [1, 0] }
        true (some GoErr.divideByZero) :=
  c2_error_restore_amended.1 DivisionOperation (by simp)
    { newInterpreter with store := [mkNum 10 0, mkNum 0 0], stack := [1, 0] }
    GoErr.divideByZero (by decide)

/-- Claim C6 (amended): for `+`, `-`, `*`, `/`, `%`, `~`, every error
returns the interpreter — stack and store — bit-identical to its
pre-operation state, with the operands back in their original order.  `^`
also restores on non-numeric operands, but when it fails with
*whole-exponents-only* (a non-positive integer part of the exponent) the
exponent operand has already been truncated to precision 0 in place, so the
restored top of stack holds the floored exponent rather than the original
value. -/
theorem c6_binary_restore_amended :
    (∀ op ∈ [AdditionOperation, SubtractionOperation, MultiplicationOperation,
             DivisionOperation, ModuloOperation, QuotientRemainderOperation],
      ∀ (st : Interp) (e : GoErr), opErr (op st) = some e →
        op st = OpRes.opok st true (some e)) ∧
    (∀ (st : Interp), opErr (ExponentOperation st) = some GoErr.valueNotNumeric →
      ExponentOperation st = OpRes.opok st true (some GoErr.valueNotNumeric)) ∧
    (∀ (st : Interp) (a b : Ptr) (rest : List Ptr),
      st.stack = a :: b :: rest →
      a < st.store.length →
      (getv st.store a).type = ValueType.number →
      (getv st.store b).type = ValueType.number →
      ((getv st.store a).updatePrecision 0).intval ≤ 0 →
      ExponentOperation st =
        OpRes.opok { st with store := UpdatePrecisionM st.store a 0 } true
          (some GoErr.wholeExponentsOnly)) := by
  refine ⟨?_, ?_, ?_⟩
  · intro op hop
    simp only [List.mem_cons, List.mem_singleton, List.not_mem_nil, or_false] at hop
    rcases hop with rfl | rfl | rfl | rfl | rfl | rfl
    · exact makeBinary_err_restore AdditionF AdditionF_err
    · exact makeBinary_err_restore SubtractionF SubtractionF_err
    · exact makeBinary_err_restore MultiplicationF MultiplicationF_err
    · exact makeBinary_err_restore DivisionF DivisionF_err
    · exact makeBinary_err_restore ModuloF ModuloF_err
    · exact makeBinary_err_restore QuotientRemainderF QuotientRemainderF_err
  · intro st h
    have hf : ∀ s l r e, (ExponentF s l r).2.2 = some e → e = GoErr.valueNotNumeric →
        (ExponentF s l r).1 = s := by
      intro s l r e hE hvnn
      cases hEN : ensureNumeric [getv s l, getv s r] with
      | some e' => simp [ExponentF, hEN]
      | none =>
        rcases hA : ExponentM s l r with ⟨s', err⟩
        cases err with
        | none => simp [ExponentF, hEN, hA] at hE
        | some e' =>
          exfalso
          subst hvnn
          have h2 : e' = GoErr.valueNotNumeric := by
            simp [ExponentF, hEN, hA] at hE
            exact hE
          apply ExponentM_not_vnn s l r
          rw [hA, h2]
    -- replay the generic restoration proof, restricted to value-not-numeric
    cases hs : st.stack with
    | nil =>
      have hrun : ExponentOperation st = OpRes.opok st true (some GoErr.stackTooShort) := by
        simp [ExponentOperation, makeBinaryOperation, hs]
      rw [hrun] at h
      simp [opErr] at h
    | cons right tl =>
      cases tl with
      | nil =>
        have hrun : ExponentOperation st = OpRes.opok st true (some GoErr.stackTooShort) := by
          simp [ExponentOperation, makeBinaryOperation, hs]
        rw [hrun] at h
        simp [opErr] at h
      | cons left rest =>
        rcases hf' : ExponentF st.store left right with ⟨s', nums, err⟩
        cases err with
        | none =>
          have hrun : ExponentOperation st =
              OpRes.opok { st with store := s', stack := nums.reverse ++ rest } true none := by
            simp [ExponentOperation, makeBinaryOperation, hs, hf']
          rw [hrun] at h
          simp [opErr] at h
        | some e' =>
          have he' : e' = GoErr.valueNotNumeric := by
            have hrun : ExponentOperation st =
                OpRes.opok { st with store := s', stack := right :: left :: rest } true
                  (some e') := by
              simp [ExponentOperation, makeBinaryOperation, hs, hf']
            rw [hrun] at h
            simpa [opErr] using h
          have hstore : s' = st.store := by
        -- wait, needs hf applied
            have h2 := hf st.store left right e' (by rw [hf']) he'
            rw [hf'] at h2
            exact h2
          have hrun : ExponentOperation st =
              OpRes.opok st true (some GoErr.valueNotNumeric) := by
            have hx : ExponentOperation st =
                OpRes.opok { st with store := s', stack := right :: left :: rest } true
                  (some e') := by
              simp [ExponentOperation, makeBinaryOperation, hs, hf']
            rw [hx, hstore, ← hs, he']
          exact hrun
  · intro st a b rest hs hlen ha hb hexp
    have hEN : ensureNumeric [getv st.store b, getv st.store a] = none := by
      simp [ensureNumeric, ha, hb]
    have hup : getv (UpdatePrecisionM st.store a 0) a =
        (getv st.store a).updatePrecision 0 := by
      unfold UpdatePrecisionM
      exact getv_setv_same _ _ _ hlen
    have hM : ExponentM st.store b a =
        (UpdatePrecisionM st.store a 0, some GoErr.wholeExponentsOnly) := by
      simp [ExponentM, ha, hb, hup, hexp]
    have hF : ExponentF st.store b a =
        (UpdatePrecisionM st.store a 0, [], some GoErr.wholeExponentsOnly) := by
      simp [ExponentF, hEN, hM]
    have hx : ExponentOperation st =
        OpRes.opok { st with store := UpdatePrecisionM st.store a 0,
                             stack := a :: b :: rest } true
          (some GoErr.wholeExponentsOnly) := by
      simp [ExponentOperation, makeBinaryOperation, hs, hF]
    rw [hx, ← hs]

section ConditionalSemantics

/-- The spec-side comparison of the conditional operations: `<` fires when
`left < right`, `>` when `left > right`, `=` when `left == right` (values
read as rationals). -/
def cmpHolds (t : CmpTag) (x y : ℚ) : Prop :=
  match t with
  | CmpTag.ltT => x < y
  | CmpTag.gtT => y < x
  | CmpTag.eqT => x = y

instance cmpHoldsDecidable (t : CmpTag) (x y : ℚ) : Decidable (cmpHolds t x y) := by
  cases t <;> unfold cmpHolds <;> infer_instance

theorem Int_ediv_one (a : Int) : Int.ediv a 1 = a := Int.ediv_one a

theorem updatePrecision_same (v : Value) : v.updatePrecision v.precision = v := by
  unfold Value.updatePrecision
  by_cases h : v.type = ValueType.string
  · simp [h]
  · simp [h, precisionToFactor, Int_ediv_one]

theorem cast_scaled_div (x : ℤ) (p P : ℕ) (hp : p ≤ P) :
    ((x * 10 ^ (P - p) : ℤ) : ℚ) / 10 ^ P = (x : ℚ) / 10 ^ p := by
  push_cast
  rw [div_eq_div_iff (by positivity) (by positivity)]
  rw [mul_assoc, pow_sub_mul_pow (10 : ℚ) hp]

theorem qdiv_lt_iff (x y : ℤ) (p q P : ℕ) (hp : p ≤ P) (hq : q ≤ P) :
    (x * 10 ^ (P - p) < y * 10 ^ (P - q)) ↔ ((x : ℚ) / 10 ^ p < (y : ℚ) / 10 ^ q) := by
  rw [← cast_scaled_div x p P hp, ← cast_scaled_div y q P hq,
      div_lt_div_iff_of_pos_right (by positivity : (0:ℚ) < 10 ^ P)]
  exact Int.cast_lt.symm

theorem qdiv_eq_iff (x y : ℤ) (p q P : ℕ) (hp : p ≤ P) (hq : q ≤ P) :
    (x * 10 ^ (P - p) = y * 10 ^ (P - q)) ↔ ((x : ℚ) / 10 ^ p = (y : ℚ) / 10 ^ q) := by
  rw [← cast_scaled_div x p P hp, ← cast_scaled_div y q P hq]
  constructor
  · intro h
    rw [h]
  · intro h
    have h2 : ((x * 10 ^ (P - p) : ℤ) : ℚ) = ((y * 10 ^ (P - q) : ℤ) : ℚ) :=
      mul_right_cancel₀ (by positivity : (10:ℚ) ^ P ≠ 0)
        (by rw [div_eq_div_iff (by positivity) (by positivity)] at h; exact h)
    exact_mod_cast h2

/-- After the in-place `MatchPrecision`, the two values hold their original
integers scaled up to a common precision `P`. -/
theorem matched_intvals (s : Store) (a b : Ptr) (hab : a ≠ b)
    (ha : a < s.length) (hb : b < s.length)
    (hta : (getv s a).type = ValueType.number) (htb : (getv s b).type = ValueType.number)
    (hpa : 0 ≤ (getv s a).precision) (hpb : 0 ≤ (getv s b).precision) :
    ∃ P : ℕ, (getv s a).precision.toNat ≤ P ∧ (getv s b).precision.toNat ≤ P ∧
      (getv (MatchPrecisionM s a b) a).intval =
        (getv s a).intval * 10 ^ (P - (getv s a).precision.toNat) ∧
      (getv (MatchPrecisionM s a b) b).intval =
        (getv s b).intval * 10 ^ (P - (getv s b).precision.toNat) := by
  unfold MatchPrecisionM
  by_cases hpp : (getv s a).precision > (getv s b).precision
  · refine ⟨(getv s a).precision.toNat, le_rfl, by omega, ?_, ?_⟩
    · rw [if_pos hpp, getv_setv_ne _ _ _ _ (Ne.symm hab), Nat.sub_self, pow_zero, mul_one]
    · rw [if_pos hpp, getv_setv_same _ _ _ hb]
      unfold Value.updatePrecision
      rw [if_neg (by rw [htb]; intro hcon; cases hcon), if_pos hpp]
      unfold precisionToFactor
      have hsub : ((getv s a).precision - (getv s b).precision).toNat =
          (getv s a).precision.toNat - (getv s b).precision.toNat := by omega
      dsimp only
      rw [hsub]
  · refine ⟨(getv s b).precision.toNat, by omega, le_rfl, ?_, ?_⟩
    · rw [if_neg hpp, getv_setv_same _ _ _ ha]
      unfold Value.updatePrecision
      rw [if_neg (by rw [hta]; intro hcon; cases hcon)]
      push_neg at hpp
      by_cases heq : (getv s b).precision > (getv s a).precision
      · rw [if_pos heq]
        unfold precisionToFactor
        have hsub : ((getv s b).precision - (getv s a).precision).toNat =
            (getv s b).precision.toNat - (getv s a).precision.toNat := by omega
        dsimp only
        rw [hsub]
      · have hpe : (getv s a).precision = (getv s b).precision := le_antisymm hpp (not_lt.mp heq)
        rw [if_neg heq]
        unfold precisionToFactor
        dsimp only
        rw [hpe, sub_self]
        simp [Int_ediv_one]
    · rw [if_neg hpp, getv_setv_ne _ _ _ _ hab, Nat.sub_self, pow_zero, mul_one]

/-- The comparison computed by the conditional predicates (after the
in-place `MatchPrecision`) agrees with the comparison of the denoted
rationals. -/
theorem cmpPredicate_spec (t : CmpTag) (s : Store) (a b : Ptr)
    (ha : a < s.length) (hb : b < s.length)
    (hta : (getv s a).type = ValueType.number) (htb : (getv s b).type = ValueType.number)
    (hpa : 0 ≤ (getv s a).precision) (hpb : 0 ≤ (getv s b).precision) :
    (cmpPredicate t s a b).2 =
      decide (cmpHolds t (ratVal (getv s a)) (ratVal (getv s b))) := by
  by_cases hab : a = b
  · subst hab
    have h1 : MatchPrecisionM s a a = setv s a (getv s a) := by
      unfold MatchPrecisionM
      simp [updatePrecision_same]
    have h2 : getv (MatchPrecisionM s a a) a = getv s a := by
      rw [h1, getv_setv_same _ _ _ ha]
    cases t <;> simp [cmpPredicate, h1, h2, cmpHolds, ratVal]
  · obtain ⟨P, hP1, hP2, e1, e2⟩ :=
      matched_intvals s a b hab ha hb hta htb hpa hpb
    have hlt : ((getv (MatchPrecisionM s a b) a).intval <
        (getv (MatchPrecisionM s a b) b).intval) ↔
        ratVal (getv s a) < ratVal (getv s b) := by
      rw [e1, e2]
      exact qdiv_lt_iff _ _ _ _ P hP1 hP2
    have hgt : ((getv (MatchPrecisionM s a b) b).intval <
        (getv (MatchPrecisionM s a b) a).intval) ↔
        ratVal (getv s b) < ratVal (getv s a) := by
      rw [e1, e2]
      exact qdiv_lt_iff _ _ _ _ P hP2 hP1
    have heq : ((getv (MatchPrecisionM s a b) a).intval =
        (getv (MatchPrecisionM s a b) b).intval) ↔
        ratVal (getv s a) = ratVal (getv s b) := by
      rw [e1, e2]
      exact qdiv_eq_iff _ _ _ _ P hP1 hP2
    cases t with
    | ltT =>
      simp only [cmpPredicate, cmpHolds]
      exact decide_eq_decide.mpr hlt
    | gtT =>
      simp only [cmpPredicate, cmpHolds, gt_iff_lt]
      exact decide_eq_decide.mpr hgt
    | eqT =>
      simp only [cmpPredicate, cmpHolds]
      exact decide_eq_decide.mpr heq

/-- The conditional operation selected by a comparison tag (`<` / `>` /
`=`). -/
def condOpRun (t : CmpTag) (ip : Interp → Char → Res) (st : Interp) (r : Char) : OpRes :=
  match t with
  | CmpTag.ltT => ExecuteMacroIfLTOperation ip st r
  | CmpTag.gtT => ExecuteMacroIfGTOperation ip st r
  | CmpTag.eqT => ExecuteMacroIfEqOperation ip st r

/-- The `State` flag of the conditional operation selected by a tag. -/
def condArmed (t : CmpTag) (st : Interp) : Bool :=
  match t with
  | CmpTag.ltT => st.ltState
  | CmpTag.gtT => st.gtState
  | CmpTag.eqT => st.eqState

/-- Reset the `State` flag of the conditional operation selected by a
tag. -/
def condDisarm (t : CmpTag) (st : Interp) : Interp :=
  match t with
  | CmpTag.ltT => { st with ltState := false }
  | CmpTag.gtT => { st with gtState := false }
  | CmpTag.eqT => { st with eqState := false }

end ConditionalSemantics

/-- Claim C4: with two numeric values on the main stack (left the popped
top, right the popped next) and a string on top of register `x`, each
two-rune conditional executes the register's top string as a macro exactly
when its comparison holds on the denoted rationals (`<` iff left < right,
`>` iff left > right, `=` iff left = right); the string is popped from the
register exactly when the predicate fires and left in place otherwise; and
each `!`-prefixed form executes the macro exactly when the un-negated
predicate is false (popping the register string in that case only). -/
theorem c4_conditional_semantics :
    ∀ (fuel : Nat) (t : CmpTag) (st : Interp) (c : Char) (a b : Ptr) (rest : List Ptr)
      (mPtr : Ptr) (ms : List Ptr),
      isRegister c = true →
      st.stack = a :: b :: rest →
      getReg st c = mPtr :: ms →
      (getv st.store mPtr).type = ValueType.string →
      (getv st.store a).type = ValueType.number →
      (getv st.store b).type = ValueType.number →
      0 ≤ (getv st.store a).precision →
      0 ≤ (getv st.store b).precision →
      a < st.store.length → b < st.store.length →
      ((condArmed t st = true →
        (cmpHolds t (ratVal (getv st.store a)) (ratVal (getv st.store b)) →
          condOpRun t (interpret fuel) st c =
            mapResState (condDisarm t)
              (match interpretMacroAux (interpret fuel)
                  { setReg { st with store := MatchPrecisionM st.store a b, stack := rest } c ms
                      with current := none }
                  ((getv st.store mPtr).strval) with
               | Res.ok s e => OpRes.opok s true e
               | Res.panic => OpRes.panic
               | Res.nofuel => OpRes.nofuel)) ∧
        (¬ cmpHolds t (ratVal (getv st.store a)) (ratVal (getv st.store b)) →
          condOpRun t (interpret fuel) st c =
            OpRes.opok
              (condDisarm t { st with store := MatchPrecisionM st.store a b, stack := rest })
              true none)) ∧
       (st.negState = true → st.negInner = some ⟨some t, true⟩ →
        (¬ cmpHolds t (ratVal (getv st.store a)) (ratVal (getv st.store b)) →
          ExecuteMacroNegativeOperation (interpret fuel) st c =
            mapResState (fun s => { s with negState := false, negInner := none })
              (match interpretMacroAux (interpret fuel)
                  { setReg { st with store := MatchPrecisionM st.store a b, stack := rest } c ms
                      with current := none }
                  ((getv st.store mPtr).strval) with
               | Res.ok s e => OpRes.opok s true e
               | Res.panic => OpRes.panic
               | Res.nofuel => OpRes.nofuel)) ∧
        (cmpHolds t (ratVal (getv st.store a)) (ratVal (getv st.store b)) →
          ExecuteMacroNegativeOperation (interpret fuel) st c =
            OpRes.opok
              { st with store := MatchPrecisionM st.store a b, stack := rest,
                        negState := false, negInner := none } true none))) := by
  intro fuel t st c a b rest mPtr ms hreg hs hregc hstr hta htb hpa hpb hla hlb
  have hma : mPtr ≠ a := by
    intro h
    rw [h, hta] at hstr
    cases hstr
  have hmb : mPtr ≠ b := by
    intro h
    rw [h, htb] at hstr
    cases hstr
  have hmacrov : getv (MatchPrecisionM st.store a b) mPtr = getv st.store mPtr := by
    unfold MatchPrecisionM
    dsimp only
    split
    · exact getv_setv_ne _ _ _ _ (Ne.symm hmb)
    · exact getv_setv_ne _ _ _ _ (Ne.symm hma)
  have hlen2 : ¬ (rest.length + 1 + 1 < 2) := by omega
  have hbase := cmpPredicate_spec t st.store a b hla hlb hta htb hpa hpb
  rcases hcp : cmpPredicate t st.store a b with ⟨s1, base⟩
  have hs1 : s1 = MatchPrecisionM st.store a b := by
    have h1 : (cmpPredicate t st.store a b).1 = MatchPrecisionM st.store a b := by
      cases t <;> rfl
    rw [hcp] at h1
    simp at h1
    exact h1
  subst hs1
  have hbase2 : base =
      decide (cmpHolds t (ratVal (getv st.store a)) (ratVal (getv st.store b))) := by
    rw [hcp] at hbase
    exact hbase
  constructor
  · intro harm
    constructor
    · intro hc
      have hbt : base = true := by
        rw [hbase2]
        exact decide_eq_true hc
      subst hbt
      rcases hIM : interpretMacroAux (interpret fuel)
          { setReg { st with store := MatchPrecisionM st.store a b, stack := rest } c ms with
              current := none }
          ((getv st.store mPtr).strval) with ⟨st3, e3⟩ | - | -
      all_goals
        cases t <;>
          (simp only [condArmed] at harm) <;>
          (simp only [harm] at hIM) <;>
          simp [condOpRun, condDisarm, ExecuteMacroIfLTOperation, ExecuteMacroIfGTOperation,
            ExecuteMacroIfEqOperation, macroOpOperate, mapResState, harm, hreg, hs, hregc,
            hstr, hta, htb, hcp, hmacrov, hIM, hlen2]
    · intro hc
      have hbt : base = false := by
        rw [hbase2]
        exact decide_eq_false hc
      subst hbt
      cases t <;>
        (simp only [condArmed] at harm) <;>
        simp [condOpRun, condDisarm, ExecuteMacroIfLTOperation, ExecuteMacroIfGTOperation,
          ExecuteMacroIfEqOperation, macroOpOperate, mapResState, harm, hreg, hs, hregc,
          hstr, hta, htb, hcp, hlen2]
  · intro hneg1 hneg2
    constructor
    · intro hc
      have hbt : base = false := by
        rw [hbase2]
        exact decide_eq_false hc
      subst hbt
      rcases hIM : interpretMacroAux (interpret fuel)
          { setReg { st with store := MatchPrecisionM st.store a b, stack := rest } c ms with
              current := none }
          ((getv st.store mPtr).strval) with ⟨st3, e3⟩ | - | -
      all_goals
        cases t <;>
          (simp only [hneg1, hneg2] at hIM) <;>
          simp [ExecuteMacroNegativeOperation, negRunInner, macroOpOperate, mapResState,
            hneg1, hneg2, hreg, hs, hregc, hstr, hta, htb, hcp, hmacrov, hIM, hlen2]
    · intro hc
      have hbt : base = true := by
        rw [hbase2]
        exact decide_eq_true hc
      subst hbt
      cases t <;>
        simp [ExecuteMacroNegativeOperation, negRunInner, macroOpOperate, mapResState,
          hneg1, hneg2, hreg, hs, hregc, hstr, hta, htb, hcp, hlen2]

/-- Claim C4, witness: `<` armed on register `a` holding an (empty-string)
macro, with 2 on top of the stack and 1 beneath: left = 2 is not less than
right = 1, so the macro does not run and the register keeps its string. -/
theorem c4_conditional_semantics_witness :
    condOpRun CmpTag.ltT (interpret 3)
        { newInterpreter with
          store := [mkNum 2 0, mkNum 1 0, mkStr []],
          stack := [0, 1],
          regs := (List.replicate 26 ([] : List Ptr)).set 0 [2],
          ltState := true } 'a' =
      OpRes.opok
        (condDisarm CmpTag.ltT
          { { newInterpreter with
              store := [mkNum 2 0, mkNum 1 0, mkStr []],
              stack := [0, 1],
              regs := (List.replicate 26 ([] : List Ptr)).set 0 [2],
              ltState := true } with
            store := MatchPrecisionM [mkNum 2 0, mkNum 1 0, mkStr []] 0 1,
            stack := [] })
        true none :=
  ((c4_conditional_semantics 3 CmpTag.ltT
      { newInterpreter with
        store := [mkNum 2 0, mkNum 1 0, mkStr []],
        stack := [0, 1],
        regs := (List.replicate 26 ([] : List Ptr)).set 0 [2],
        ltState := true } 'a' 0 1 [] 2 []
      (by decide) rfl (by decide) (by decide) (by decide) (by decide)
      (by decide) (by decide) (by decide) (by decide)).1 rfl).2
    (by norm_num [cmpHolds, ratVal, getv, List.getD, mkNum])

/-- Claim C6, witness: `-` with a string operand errs with
value-not-numeric and restores the interpreter unchanged. -/
theorem c6_binary_restore_amended_witness :
    SubtractionOperation
        { newInterpreter with store := [mkNum 1 0, mkStr ['w']], stack := [1, 0] } =
      OpRes.opok { newInterpreter with store := [mkNum 1 0, mkStr ['w']], stack := [1, 0] }
        true (some GoErr.valueNotNumeric) :=
  c6_binary_restore_amended.1 SubtractionOperation (by simp)
    { newInterpreter with store := [mkNum 1 0, mkStr ['w']], stack := [1, 0] }
    GoErr.valueNotNumeric (by decide)

/-- Claim C5, counterexample: the fixed-point `NumberBuilder.Flush`
(src/unnamed/part_003) truncates the fraction to the display precision at
parse time: flushing the literal `1.5` with display precision 0 pushes the
value 1 (exactly), not the rational 3/2 the claim requires. -/
theorem c5_literal_lossy_cex :
    (nbFlush { newInterpreter with nbBuff := "1.5".toList, nbDot := true }).2 = none ∧
    stackVals (nbFlush { newInterpreter with nbBuff := "1.5".toList, nbDot := true }).1 =
      [mkNum 1 0] ∧
    ratVal (mkNum 1 0) = 1 ∧
    (1 : ℚ) ≠ (1 : ℚ) + 5 / 10 ^ (1 : ℕ) := by
  refine ⟨by decide, by decide, by norm_num [ratVal, mkNum], by norm_num⟩

section FlushExactness

theorem Int_mul_ediv_cancel (a b : Int) (h : b ≠ 0) : Int.ediv (a * b) b = a :=
  Int.mul_ediv_cancel a h

theorem flushRat_dot (radix : Nat) (ip fp : List Char) (sign : Bool)
    (hr : 0 < radix) (hip : ValidDigits radix ip) (hfp : ValidDigits radix fp)
    (hne : ip ++ fp ≠ []) :
    NumberBuilderFlushRat (ip ++ '.' :: fp) true sign radix =
      some ((if sign then (-1 : ℚ) else 1) *
        ((digitsVal radix ip : ℚ) +
          (digitsVal radix fp : ℚ) / (radix : ℚ) ^ fp.length)) := by
  have hdip : '.' ∉ ip := validDigits_no_dot radix ip hip
  have hdfp : '.' ∉ fp := validDigits_no_dot radix fp hfp
  have hvalid : ValidDigits radix (ip ++ fp) := by
    intro c hc
    rcases List.mem_append.mp hc with h | h
    · exact hip c h
    · exact hfp c h
  have hparse : parseDigits radix (ip ++ fp) = some (digitsVal radix (ip ++ fp)) :=
    parseDigits_eq radix _ hne hvalid
  have hrne : ((radix : ℚ)) ≠ 0 := Nat.cast_ne_zero.mpr hr.ne'
  have hrkne : ((radix : ℚ)) ^ fp.length ≠ 0 := pow_ne_zero _ hrne
  have hval : ((digitsVal radix (ip ++ fp) : ℤ) : ℚ) / (((radix : ℤ) ^ fp.length : ℤ) : ℚ)
      = (digitsVal radix ip : ℚ) + (digitsVal radix fp : ℚ) / (radix : ℚ) ^ fp.length := by
    rw [digitsVal_append]
    push_cast
    rw [add_div, mul_div_cancel_right₀ _ hrkne]
  push_cast at hval
  simp only [NumberBuilderFlushRat, splitDots_append ip fp hdip hdfp,
    removeFirstDot_append ip fp hdip, hparse, if_true, ite_true]
  cases sign
  · simp [hval]
  · simp [hval]

theorem flushRat_int (radix : Nat) (ip : List Char) (sign : Bool)
    (hip : ValidDigits radix ip) (hne : ip ≠ []) :
    NumberBuilderFlushRat ip false sign radix =
      some ((if sign then (-1 : ℚ) else 1) * (digitsVal radix ip : ℚ)) := by
  simp only [NumberBuilderFlushRat, parseDigits_eq radix ip hne hip,
    Bool.false_eq_true, if_false, ite_false]
  cases sign
  · simp
  · simp

theorem ratVal_updatePrecision_zero (n P : Int) (hP : 0 ≤ P) :
    ratVal ((mkNum n 0).updatePrecision P) = (n : ℚ) := by
  by_cases h : P > 0
  · have hrec : (mkNum n 0).updatePrecision P =
        { intval := n * 10 ^ P.toNat, precision := P } := by
      simp [mkNum, Value.updatePrecision, precisionToFactor, h]
    rw [hrec]
    unfold ratVal
    push_cast
    rw [mul_div_cancel_right₀ _ (by positivity : (10:ℚ) ^ P.toNat ≠ 0)]
  · have hP0 : P = 0 := le_antisymm (not_lt.mp h) hP
    subst hP0
    have hrec : (mkNum n 0).updatePrecision 0 = mkNum n 0 := updatePrecision_same (mkNum n 0)
    rw [hrec]
    simp [ratVal, mkNum]

theorem ratVal_fixed (I F : Int) (sign : Bool) (P : Int) (k : Nat)
    (hP : 0 ≤ P) (hk : (k : Int) ≤ P) :
    ratVal (mkNum (if sign then -(I * 10 ^ P.toNat + F * 10 ^ (P.toNat - k))
                   else I * 10 ^ P.toNat + F * 10 ^ (P.toNat - k)) P) =
      (if sign then (-1 : ℚ) else 1) * ((I : ℚ) + (F : ℚ) / 10 ^ k) := by
  have hkn : k ≤ P.toNat := by omega
  have hkey := fixed_div_val I F P.toNat k hkn
  cases sign
  · show ((I * 10 ^ P.toNat + F * 10 ^ (P.toNat - k) : ℤ) : ℚ) / (10:ℚ) ^ P.toNat
        = 1 * ((I : ℚ) + (F : ℚ) / 10 ^ k)
    rw [hkey, one_mul]
  · show ((-(I * 10 ^ P.toNat + F * 10 ^ (P.toNat - k)) : ℤ) : ℚ) / (10:ℚ) ^ P.toNat
        = -1 * ((I : ℚ) + (F : ℚ) / 10 ^ k)
    rw [Int.cast_neg, neg_div, hkey, neg_one_mul]

theorem nbFinish_stackVals (st : Interp) (num vprec : Int)
    (hvalid : ∀ p ∈ st.stack, p < st.store.length) :
    stackVals (nbFinish st num vprec) =
      ((mkNum (if st.nbSign then -num else num) vprec).updatePrecision st.precision)
        :: stackVals st := by
  have key := stackVals_alloc st
    ((mkNum (if st.nbSign then -num else num) vprec).updatePrecision st.precision) hvalid
  rw [← key]
  rfl

theorem nbFlush_int_exact (st : Interp)
    (hdot : st.nbDot = false)
    (hv : ValidDigits st.inputRadix st.nbBuff) (hne : st.nbBuff ≠ [])
    (hP : 0 ≤ st.precision)
    (hvalid : ∀ p ∈ st.stack, p < st.store.length) :
    (nbFlush st).2 = none ∧
    ∃ v : Value, stackVals (nbFlush st).1 = v :: stackVals st ∧
      ratVal v = (if st.nbSign then (-1 : ℚ) else 1) *
        (digitsVal st.inputRadix st.nbBuff : ℚ) := by
  have hred : nbFlush st = (nbFinish st (digitsVal st.inputRadix st.nbBuff) 0, none) := by
    simp only [nbFlush, hdot, Bool.false_eq_true, if_false, ite_false,
      parseDigits_eq st.inputRadix st.nbBuff hne hv]
  rw [hred]
  refine ⟨rfl,
    (mkNum (if st.nbSign then -(digitsVal st.inputRadix st.nbBuff)
      else digitsVal st.inputRadix st.nbBuff) 0).updatePrecision st.precision,
    nbFinish_stackVals st _ 0 hvalid, ?_⟩
  rw [ratVal_updatePrecision_zero _ _ hP]
  cases hs : st.nbSign
  · simp
  · simp

theorem nbFlush_dot_exact (st : Interp) (ip fp : List Char)
    (hbuff : st.nbBuff = ip ++ '.' :: fp)
    (hdot : st.nbDot = true)
    (hrad : st.inputRadix = 10)
    (hip : ValidDigits 10 ip) (hfp : ValidDigits 10 fp)
    (hkP : (fp.length : Int) ≤ st.precision)
    (hP : 0 ≤ st.precision)
    (hvalid : ∀ p ∈ st.stack, p < st.store.length) :
    (nbFlush st).2 = none ∧
    ∃ v : Value,
      stackVals (nbFlush st).1 = v :: stackVals st ∧
      ratVal v = (if st.nbSign then (-1 : ℚ) else 1) *
        ((digitsVal 10 ip : ℚ) + (digitsVal 10 fp : ℚ) / 10 ^ fp.length) := by
  have hdip : '.' ∉ ip := validDigits_no_dot 10 ip hip
  have hdfp : '.' ∉ fp := validDigits_no_dot 10 fp hfp
  have hsplit : splitDots st.nbBuff = [ip, fp] := by
    rw [hbuff]
    exact splitDots_append ip fp hdip hdfp
  have hnum : (if ip.length > 0 then parseDigits st.inputRadix ip else some 0)
      = some (digitsVal 10 ip) := by
    cases ip with
    | nil => simp [digitsVal]
    | cons c cs =>
      rw [hrad]
      simp [parseDigits_eq 10 (c :: cs) (by simp) hip]
  cases fp with
  | nil =>
    have hred : nbFlush st = (nbFinish st (digitsVal 10 ip) 0, none) := by
      simp only [nbFlush, hdot, hsplit, hnum, if_true, ite_true]
      norm_num
    rw [hred]
    refine ⟨rfl,
      (mkNum (if st.nbSign then -(digitsVal 10 ip) else digitsVal 10 ip) 0).updatePrecision
        st.precision,
      nbFinish_stackVals st _ 0 hvalid, ?_⟩
    rw [ratVal_updatePrecision_zero _ _ hP]
    cases hs : st.nbSign
    · simp [digitsVal]
    · simp [digitsVal]
  | cons c cs =>
    have hfr : parseDigits st.inputRadix (c :: cs) = some (digitsVal 10 (c :: cs)) := by
      rw [hrad]
      exact parseDigits_eq 10 (c :: cs) (by simp) hfp
    have hne10 : ((10 : Int) ^ st.precision.toNat) ≠ 0 := by positivity
    have hmidF : ¬ (((c :: cs).length : Int) > st.precision) := not_lt.mpr hkP
    have hposc : (0 : Int) < ((c :: cs).length : Int) := by
      exact_mod_cast Nat.succ_pos cs.length
    by_cases hPk : st.precision > ((c :: cs).length : Int)
    · have hexp : goPow (st.inputRadix : Int) (st.precision - ((c :: cs).length : Int))
          = 10 ^ (st.precision.toNat - (c :: cs).length) := by
        rw [hrad]
        unfold goPow
        congr 1
        omega
      have hcancel : Int.ediv
          ((digitsVal 10 (c :: cs) * 10 ^ (st.precision.toNat - (c :: cs).length)) *
            precisionToFactor st.precision)
          (goPow (st.inputRadix : Int) st.precision)
          = digitsVal 10 (c :: cs) * 10 ^ (st.precision.toNat - (c :: cs).length) := by
        rw [hrad]
        exact Int_mul_ediv_cancel _ _ hne10
      have hred : nbFlush st = (nbFinish st
          (digitsVal 10 ip * precisionToFactor st.precision +
            digitsVal 10 (c :: cs) * 10 ^ (st.precision.toNat - (c :: cs).length))
          st.precision, none) := by
        simp only [nbFlush, hdot, hsplit, hnum, hfr, hposc, hPk, hexp, hcancel,
          if_true, ite_true]
      rw [hred]
      refine ⟨rfl,
        mkNum (if st.nbSign then
            -(digitsVal 10 ip * 10 ^ st.precision.toNat +
              digitsVal 10 (c :: cs) * 10 ^ (st.precision.toNat - (c :: cs).length))
          else digitsVal 10 ip * 10 ^ st.precision.toNat +
              digitsVal 10 (c :: cs) * 10 ^ (st.precision.toNat - (c :: cs).length))
          st.precision, ?_, ?_⟩
      · rw [nbFinish_stackVals st _ st.precision hvalid]
        congr 1
        exact updatePrecision_same _
      · exact ratVal_fixed (digitsVal 10 ip) (digitsVal 10 (c :: cs)) st.nbSign
          st.precision ((c :: cs).length) hP hkP
    · have hPkeq : st.precision = ((c :: cs).length : Int) := le_antisymm (not_lt.mp hPk) hkP
      have hzz : st.precision.toNat - (c :: cs).length = 0 := by omega
      have hcancel2 : Int.ediv
          (digitsVal 10 (c :: cs) * precisionToFactor st.precision)
          (goPow (st.inputRadix : Int) st.precision)
          = digitsVal 10 (c :: cs) := by
        rw [hrad]
        exact Int_mul_ediv_cancel _ _ hne10
      have hred : nbFlush st = (nbFinish st
          (digitsVal 10 ip * precisionToFactor st.precision +
            digitsVal 10 (c :: cs) * 10 ^ (st.precision.toNat - (c :: cs).length))
          st.precision, none) := by
        rw [hzz, pow_zero, mul_one]
        simp only [nbFlush, hdot, hsplit, hnum, hfr, hposc, hPk, hmidF, hcancel2,
          if_true, ite_true, if_false, ite_false]
      rw [hred]
      refine ⟨rfl,
        mkNum (if st.nbSign then
            -(digitsVal 10 ip * 10 ^ st.precision.toNat +
              digitsVal 10 (c :: cs) * 10 ^ (st.precision.toNat - (c :: cs).length))
          else digitsVal 10 ip * 10 ^ st.precision.toNat +
              digitsVal 10 (c :: cs) * 10 ^ (st.precision.toNat - (c :: cs).length))
          st.precision, ?_, ?_⟩
      · rw [nbFinish_stackVals st _ st.precision hvalid]
        congr 1
        exact updatePrecision_same _
      · exact ratVal_fixed (digitsVal 10 ip) (digitsVal 10 (c :: cs)) st.nbSign
          st.precision ((c :: cs).length) hP hkP

end FlushExactness

/-- Claim C5 (amended): what a numeric literal pushes is exact only up to the
display precision.  Amended statement: (1) the rational-valued
`NumberBuilder.Flush` of src/number_builder.go pushes exactly
`±(I + F/radix^k)` for a literal with integer digits `I` and `k` fraction
digits `F`, and (2) exactly `±I` for an integer literal; (3) the fixed-point
`NumberBuilder.Flush` of src/unnamed/part_003 pushes that exact rational
under input radix 10 only when `k` is at most the display precision
(otherwise the fraction is truncated, see the counterexample), and (4) pushes
integer literals exactly under any radix. -/
theorem c5_literal_value_amended :
    (∀ (radix : Nat) (ip fp : List Char) (sign : Bool),
      0 < radix → ValidDigits radix ip → ValidDigits radix fp → ip ++ fp ≠ [] →
      NumberBuilderFlushRat (ip ++ '.' :: fp) true sign radix =
        some ((if sign then (-1 : ℚ) else 1) *
          ((digitsVal radix ip : ℚ) +
            (digitsVal radix fp : ℚ) / (radix : ℚ) ^ fp.length))) ∧
    (∀ (radix : Nat) (ip : List Char) (sign : Bool),
      ValidDigits radix ip → ip ≠ [] →
      NumberBuilderFlushRat ip false sign radix =
        some ((if sign then (-1 : ℚ) else 1) * (digitsVal radix ip : ℚ))) ∧
    (∀ (st : Interp) (ip fp : List Char),
      st.nbBuff = ip ++ '.' :: fp → st.nbDot = true → st.inputRadix = 10 →
      ValidDigits 10 ip → ValidDigits 10 fp →
      (fp.length : Int) ≤ st.precision → 0 ≤ st.precision →
      (∀ p ∈ st.stack, p < st.store.length) →
      (nbFlush st).2 = none ∧
      ∃ v : Value, stackVals (nbFlush st).1 = v :: stackVals st ∧
        ratVal v = (if st.nbSign then (-1 : ℚ) else 1) *
          ((digitsVal 10 ip : ℚ) + (digitsVal 10 fp : ℚ) / 10 ^ fp.length)) ∧
    (∀ st : Interp,
      st.nbDot = false → ValidDigits st.inputRadix st.nbBuff → st.nbBuff ≠ [] →
      0 ≤ st.precision → (∀ p ∈ st.stack, p < st.store.length) →
      (nbFlush st).2 = none ∧
      ∃ v : Value, stackVals (nbFlush st).1 = v :: stackVals st ∧
        ratVal v = (if st.nbSign then (-1 : ℚ) else 1) *
          (digitsVal st.inputRadix st.nbBuff : ℚ)) :=
  ⟨flushRat_dot, flushRat_int, nbFlush_dot_exact, nbFlush_int_exact⟩

/-- Claim C7 (amended): for distinct numeric operands with a nonzero divisor
on top, `~` pushes the remainder first and then the quotient, so the
quotient ends on top of the main stack and the remainder is directly
beneath it — the opposite of the claimed order.  The two cells hold the
truncated quotient and remainder of the precision-matched integers
(`big.Int.QuoRem`).  Concretely `365 7~` leaves 52 on top above 1. -/
theorem c7_quot_rem_order_amended :
    (∀ (st : Interp) (a b : Ptr) (rest : List Ptr),
      st.stack = b :: a :: rest →
      a ≠ b → a < st.store.length → b < st.store.length →
      (getv st.store a).type = ValueType.number →
      (getv st.store b).type = ValueType.number →
      (getv st.store b).intval ≠ 0 →
      ∃ s' : Store,
        QuotientRemainderOperation st =
          OpRes.opok { st with store := s', stack := a :: b :: rest } true none ∧
        (getv s' a).intval =
          Int.tdiv (getv (MatchPrecisionM st.store a b) a).intval
            (getv (MatchPrecisionM st.store a b) b).intval ∧
        (getv s' b).intval =
          Int.tmod (getv (MatchPrecisionM st.store a b) a).intval
            (getv (MatchPrecisionM st.store a b) b).intval) ∧
    opStackVals (QuotientRemainderOperation { newInterpreter with
        store := [mkNum 365 0, mkNum 7 0]
        stack := [1, 0] }) = some [mkNum 52 0, mkNum 1 0] := by
  constructor
  · intro st a b rest hstack hab ha hb hta htb hz
    set s1 := MatchPrecisionM st.store a b with hs1
    have hlen1 : s1.length = st.store.length := by
      rw [hs1]
      exact matchPrecisionM_length _ _ _
    have ha1 : a < s1.length := by rw [hlen1]; exact ha
    set q := Int.tdiv (getv s1 a).intval (getv s1 b).intval with hq
    set r := Int.tmod (getv s1 a).intval (getv s1 b).intval with hr
    set s2 := setv s1 a { getv s1 a with intval := q } with hs2
    have hb2 : b < s2.length := by rw [hs2, setv_length, hlen1]; exact hb
    set s3 := setv s2 b { getv s2 b with intval := r } with hs3
    have h1 : ¬ ((getv st.store a).type ≠ ValueType.number) := by simp [hta]
    have h2 : ¬ ((getv st.store b).type ≠ ValueType.number) := by simp [htb]
    have hEN : ensureNumeric [getv st.store a, getv st.store b] = none := by
      simp [ensureNumeric, hta, htb]
    have hQRM : QuotientRemainderM st.store a b = (s3, some (a, b), none) := by
      simp only [QuotientRemainderM, if_neg h1, if_neg h2, if_neg hz]
    have hF : QuotientRemainderF st.store a b = (s3, [b, a], none) := by
      simp only [QuotientRemainderF, hEN, hQRM]
    have hOp : QuotientRemainderOperation st =
        OpRes.opok { st with store := s3, stack := a :: b :: rest } true none := by
      simp only [QuotientRemainderOperation, makeBinaryOperation, hstack, hF]
      rfl
    refine ⟨s3, hOp, ?_, ?_⟩
    · rw [hs3, getv_setv_ne _ _ _ _ (Ne.symm hab), hs2, getv_setv_same _ _ _ ha1]
    · rw [hs3, getv_setv_same _ _ _ hb2]
  · decide

/-- Witness for the amended C7 theorem: `365 7~` on an otherwise fresh
interpreter. -/
theorem c7_quot_rem_order_amended_witness :
    ∃ s' : Store,
      QuotientRemainderOperation { newInterpreter with
          store := [mkNum 365 0, mkNum 7 0]
          stack := [1, 0] } =
        OpRes.opok { { newInterpreter with
            store := [mkNum 365 0, mkNum 7 0]
            stack := [1, 0] } with
          store := s'
          stack := [0, 1] } true none ∧
      (getv s' 0).intval =
        Int.tdiv (getv (MatchPrecisionM [mkNum 365 0, mkNum 7 0] 0 1) 0).intval
          (getv (MatchPrecisionM [mkNum 365 0, mkNum 7 0] 0 1) 1).intval ∧
      (getv s' 1).intval =
        Int.tmod (getv (MatchPrecisionM [mkNum 365 0, mkNum 7 0] 0 1) 0).intval
          (getv (MatchPrecisionM [mkNum 365 0, mkNum 7 0] 0 1) 1).intval :=
  c7_quot_rem_order_amended.1 { newInterpreter with
      store := [mkNum 365 0, mkNum 7 0]
      stack := [1, 0] } 0 1 [] rfl (by decide) (by decide) (by decide) (by decide)
    (by decide) (by decide)

/-- Witness for the amended C5 theorem: the literal `1.5` flushed at display
precision 1 (both in the rational and in the fixed-point builder). -/
theorem c5_literal_value_amended_witness :
    (NumberBuilderFlushRat (['1'] ++ '.' :: ['5']) true false 10 =
      some ((if false then (-1 : ℚ) else 1) *
        ((digitsVal 10 ['1'] : ℚ) +
          (digitsVal 10 ['5'] : ℚ) / (10 : ℚ) ^ (['5'] : List Char).length))) ∧
    ((nbFlush { newInterpreter with
        nbBuff := ['1', '.', '5']
        nbDot := true
        precision := 1 }).2 = none ∧
      ∃ v : Value,
        stackVals (nbFlush { newInterpreter with
          nbBuff := ['1', '.', '5']
          nbDot := true
          precision := 1 }).1 =
          v :: stackVals { newInterpreter with
            nbBuff := ['1', '.', '5']
            nbDot := true
            precision := 1 } ∧
        ratVal v = (if ({ newInterpreter with
            nbBuff := ['1', '.', '5']
            nbDot := true
            precision := 1 } : Interp).nbSign then (-1 : ℚ) else 1) *
          ((digitsVal 10 ['1'] : ℚ) + (digitsVal 10 ['5'] : ℚ) / 10 ^ (['5'] : List Char).length)) :=
  ⟨c5_literal_value_amended.1 10 ['1'] ['5'] false (by decide) (by decide) (by decide)
      (by decide),
    c5_literal_value_amended.2.2.1 _ ['1'] ['5'] rfl rfl rfl (by decide) (by decide)
      (by decide) (by decide) (by decide)⟩

end Godc
